import Mathlib

/-!
Verification development for the coalesce-memory "come" command
( bin/come.js ).  The tool merges per-agent memory files into one unified
file (default AGENTS.md), replaces the originals with symbolic links, and
records the converted filenames in a .gitignore block.

The filesystem is modelled as a total map from path strings to entries
(absent / regular file / symbolic link).  File contents are lists of
characters.  Node's `path` module is an external collaborator, so its
operations (join, dirname, relative, isAbsolute) are abstracted as a
`PathOps` record.  Fallible operating-system behaviour (symlink failure
codes, rename failures, the platform string, Date.now) is injected through
an `Env` record so that both the happy path and the error paths of the
source can be exercised.
-/

namespace Coalesce

/-- A filesystem entry: absent, a regular file with content, or a symbolic
link with a target string (targets are compared literally, as in
`currentTarget !== expectedTarget`). -/
inductive FSEntry where
  | absent
  | file (content : List Char)
  | symlink (target : String)
deriving DecidableEq

/-- The filesystem: a total map from paths to entries. -/
def FS : Type := String → FSEntry

/-- Write an entry at a path (models writeFile / symlink / unlink / rename
effects pointwise). -/
def FS.set (fs : FS) (p : String) (e : FSEntry) : FS :=
  fun q => if q = p then e else fs q

/-- Error codes carried by injected symlink failures (err.code in the
source). -/
inductive ErrCode where
  | EPERM
  | ENOENT
  | other
deriving DecidableEq

/-- Errors that propagate to the top-level catch of bin/come.js. -/
inductive Err where
  | symlinkFailed (code : ErrCode)
  | copyFailed
  | readFailed (p : String)
  | renameFailed (src dst : String)
  | critical (msg : String)
deriving DecidableEq

/-- Injected environment: platform string, whether a given symlink
creation fails (and with which code), whether a given rename fails, and
the Date.now() value used for backup names. -/
structure Env where
  platform : String
  symlinkErr : String → String → Option ErrCode
  renameErr : String → String → Bool
  now : Nat

/-- Node path-module operations, treated as given primitives. -/
structure PathOps where
  join : String → String → String
  dirname : String → String
  relative : String → String → String
  isAbsolute : String → Bool

/-- CLI options (lines 32-39 of bin/come.js).  `output` is an Option: it
becomes `none` when `-o` or `--output` consumes a missing argument
(`args[++i]` past the end of the array yields undefined). -/
structure Options where
  output : Option String
  absolute : Bool
  dryRun : Bool
  verbose : Bool
  showHelp : Bool
  showVersion : Bool
deriving DecidableEq

/-- The defaults of the options object. -/
def defaultOptions : Options :=
  { output := some "AGENTS.md", absolute := false, dryRun := false,
    verbose := false, showHelp := false, showVersion := false }

/-- arg.startsWith("-") of line 127: does the token's first character
equal '-'. -/
def startsWithDash (arg : String) : Bool :=
  match arg.data with
  | [] => false
  | c :: _ => decide (c = '-')

/-- Argument parsing (lines 100-133): the switch statement over argv.
`-o`/`--output` consume the next token unconditionally via `args[++i]`;
with no next token the output becomes undefined (`none`) and the loop
ends.  An unrecognized token starting with "-" exits with code 1. -/
def parseArgsAux : Options → List String → List String → Except String (Options × List String)
  | opts, files, [] => .ok (opts, files.reverse)
  | opts, files, "-h" :: rest => parseArgsAux { opts with showHelp := true } files rest
  | opts, files, "--help" :: rest => parseArgsAux { opts with showHelp := true } files rest
  | opts, files, "--version" :: rest => parseArgsAux { opts with showVersion := true } files rest
  | opts, files, "-o" :: v :: rest => parseArgsAux { opts with output := some v } files rest
  | opts, files, ["-o"] => .ok ({ opts with output := none }, files.reverse)
  | opts, files, "--output" :: v :: rest => parseArgsAux { opts with output := some v } files rest
  | opts, files, ["--output"] => .ok ({ opts with output := none }, files.reverse)
  | opts, files, "--absolute" :: rest => parseArgsAux { opts with absolute := true } files rest
  | opts, files, "--dry-run" :: rest => parseArgsAux { opts with dryRun := true } files rest
  | opts, files, "-v" :: rest => parseArgsAux { opts with verbose := true } files rest
  | opts, files, "--verbose" :: rest => parseArgsAux { opts with verbose := true } files rest
  | opts, files, arg :: rest =>
      if startsWithDash arg then .error ("Unknown option: " ++ arg)
      else parseArgsAux opts (arg :: files) rest

/-- Parse an argument vector starting from the option defaults. -/
def parseArgs (args : List String) : Except String (Options × List String) :=
  parseArgsAux defaultOptions [] args

/-- JS String.prototype.trim's whitespace test, restricted to the ASCII
whitespace characters relevant here. -/
def isJsSpace (c : Char) : Bool :=
  c = ' ' || c = '\t' || c = '\n' || c = '\r'

/-- content.trim(): strip whitespace from both ends. -/
def trimChars (l : List Char) : List Char :=
  ((l.dropWhile isJsSpace).reverse.dropWhile isJsSpace).reverse

/-- unifiedTx.includes(sub): substring containment. -/
def containsSub (l sub : List Char) : Bool :=
  decide (sub <:+: l)

/-- unifiedTx.endsWith('\n\n'). -/
def endsWithBlank (l : List Char) : Bool :=
  decide (['\n', '\n'] <:+ l)

/-- file.replace(/`/g, '\\`') on the character list: every backtick is
replaced by backslash-backtick. -/
def escapeBackticks : List Char → List Char
  | [] => []
  | c :: rest => (if c = '\x60' then ['\\', '\x60'] else [c]) ++ escapeBackticks rest

/-- Block start marker (line 232): backtick, ">>> ", escaped filename,
backtick. -/
def blockStartOf (file : String) : List Char :=
  "\x60>>> ".data ++ escapeBackticks file.data ++ "\x60".data

/-- Block end marker (line 233). -/
def blockEndOf (file : String) : List Char :=
  "\x60<<< ".data ++ escapeBackticks file.data ++ "\x60".data

/-- The appended block text (lines 237-242): optional separator, start
marker, newline, trimmed content, newline, end marker, newline. -/
def appendBlock (file : String) (content unifiedTx : List Char) : List Char :=
  let separator := if unifiedTx.length > 0 && !endsWithBlank unifiedTx then "\n\n".data else []
  unifiedTx ++ separator ++ blockStartOf file ++ ['\n'] ++ trimChars content
    ++ ['\n'] ++ blockEndOf file ++ ['\n']

/-- The content merge (lines 236-243): no-op when the unified text already
contains the start marker as a substring, otherwise the pure append. -/
def mergeStep (file : String) (content unifiedTx : List Char) : List Char :=
  if containsSub unifiedTx (blockStartOf file) then unifiedTx
  else appendBlock file content unifiedTx

/-- The .gitignore block start marker (line 58). -/
def giBlockStart : List Char := "# coalesce-memory symlinked files".data

/-- The .gitignore block end marker (line 59). -/
def giBlockEnd : List Char := "# end coalesce-memory".data

/-- content.split("\n"): split a character list on newline characters;
always returns at least one piece. -/
def splitLines : List Char → List (List Char)
  | [] => [[]]
  | c :: rest =>
    if c = '\n' then [] :: splitLines rest
    else
      match splitLines rest with
      | l :: ls => (c :: l) :: ls
      | [] => [[c]]

/-- lines.join("\n"). -/
def joinLines : List (List Char) → List Char
  | [] => []
  | [l] => l
  | l :: ls => l ++ '\n' :: joinLines ls

/-- Array.prototype.findIndex as an Option-valued index search. -/
def findLineIdx (p : List Char → Bool) : List (List Char) → Option Nat
  | [] => none
  | x :: xs => if p x then some 0 else (findLineIdx p xs).map (· + 1)

/-- startIdx (line 73): index of the first line trimming to the block
start marker. -/
def giStartIdx (lines : List (List Char)) : Option Nat :=
  findLineIdx (fun line => decide (trimChars line = giBlockStart)) lines

/-- endIdx (lines 74-77): the first index strictly after `s` whose line
trims to the block end marker, expressed through the dropped suffix. -/
def giEndRel (lines : List (List Char)) (s : Nat) : Option Nat :=
  findLineIdx (fun line => decide (trimChars line = giBlockEnd)) (lines.drop (s + 1))

/-- The freshly created .gitignore block (lines 67 and 89):
`blockStart\nfilename\nblockEnd\n`. -/
def giInitBlock (filename : String) : List Char :=
  giBlockStart ++ ['\n'] ++ filename.data ++ ['\n'] ++ giBlockEnd ++ ['\n']

/-- The duplicate-entry check of addToGitignore (lines 73-81): true iff a
complete block exists (start marker line, end marker line after it) and
some line strictly between them trims to the filename. -/
def gitignoreHas (content : List Char) (filename : String) : Bool :=
  let lines := splitLines content
  match giStartIdx lines with
  | none => false
  | some s =>
    match giEndRel lines s with
    | none => false
    | some j =>
      ((lines.drop (s + 1)).take j).any (fun line => decide (trimChars line = filename.data))

/-- The mutation of addToGitignore when the filename is not yet listed
(lines 83-92): splice the filename just before the end marker when a
complete block exists, else append a fresh block (with a blank-line
separator when the file is non-empty). -/
def gitignoreAdd (filename : String) (content : List Char) : List Char :=
  let lines := splitLines content
  match giStartIdx lines with
  | some s =>
    match giEndRel lines s with
    | some j =>
      let e := s + 1 + j
      joinLines (lines.take e ++ [filename.data] ++ lines.drop e)
    | none =>
      content ++ (if content.length > 0 then "\n\n".data else []) ++ giInitBlock filename
  | none =>
    content ++ (if content.length > 0 then "\n\n".data else []) ++ giInitBlock filename

/-- addToGitignore (lines 50-94): dry-run is a pure no-op; a missing
.gitignore is created with a fresh block; an already-listed filename
leaves the filesystem untouched; otherwise the content is updated via
`gitignoreAdd`. -/
def addToGitignore (P : PathOps) (opts : Options) (cwd filename : String) (fs : FS) : FS :=
  if opts.dryRun then fs
  else
    let gitignorePath := P.join cwd ".gitignore"
    match fs gitignorePath with
    | .file content =>
      if gitignoreHas content filename then fs
      else fs.set gitignorePath (.file (gitignoreAdd filename content))
    | _ => fs.set gitignorePath (.file (giInitBlock filename))

/-- fs.copyFile(src, dst): copy the bytes of a regular file. -/
def copyFile (src dst : String) (fs : FS) : Except Err FS :=
  match fs src with
  | .file c => .ok (fs.set dst (.file c))
  | _ => .error .copyFailed

/-- createSymlinkWithFallback (lines 14-29): create the symlink; on an
injected failure, fall back to copying the unified file when the platform
is win32 and the code is EPERM or ENOENT, otherwise rethrow. -/
def createSymlinkWithFallback (env : Env) (target linkPath fallbackSourcePath : String)
    (fs : FS) : Except Err FS :=
  match env.symlinkErr linkPath target with
  | none => .ok (fs.set linkPath (.symlink target))
  | some code =>
    if env.platform = "win32" ∧ (code = .EPERM ∨ code = .ENOENT) then
      copyFile fallbackSourcePath linkPath fs
    else .error (.symlinkFailed code)

/-- The expected symlink target (lines 198, 211, 252): the unified path
itself under --absolute, else the relative path from the input file's
directory to the unified path. -/
def expectedTargetOf (P : PathOps) (opts : Options) (unifiedPath filePath : String) : String :=
  if opts.absolute then unifiedPath else P.relative (P.dirname filePath) unifiedPath

/-- fs.rename(src, dst): fails when injected by the environment or when
the source is absent; otherwise moves the entry. -/
def renameFs (env : Env) (src dst : String) (fs : FS) : Except Err FS :=
  if env.renameErr src dst then .error (.renameFailed src dst)
  else
    match fs src with
    | .absent => .error (.renameFailed src dst)
    | e => .ok ((fs.set src .absent).set dst e)

/-- Result of a step of the run: the error case keeps the filesystem state
reached at the failure point (the top-level catch does not roll back). -/
inductive RunResult where
  | ok (fs : FS)
  | err (e : Err) (fs : FS)

/-- The backup path of line 254: `filePath.backup-<Date.now()>`. -/
def backupPathOf (env : Env) (filePath : String) : String :=
  filePath ++ ".backup-" ++ toString env.now

/-- Replace-with-link (lines 251-269): skipped in dry-run; otherwise
rename the original to a backup, create the symlink, delete the backup;
on any failure inside the try block, attempt to rename the backup back,
and if that restore also fails report the backup location as a critical
error. -/
def replaceWithLink (P : PathOps) (env : Env) (opts : Options)
    (unifiedPath file filePath : String) (fs : FS) : RunResult :=
  if opts.dryRun then .ok fs
  else
    let symlinkTarget := expectedTargetOf P opts unifiedPath filePath
    let backupPath := backupPathOf env filePath
    let attempt : FS ⊕ (Err × FS) :=
      match renameFs env filePath backupPath fs with
      | .error e => .inr (e, fs)
      | .ok fs1 =>
        match createSymlinkWithFallback env symlinkTarget filePath unifiedPath fs1 with
        | .error e => .inr (e, fs1)
        | .ok fs2 => .inl (fs2.set backupPath .absent)
    match attempt with
    | .inl fs' => .ok fs'
    | .inr (symlinkErr, fsAtFail) =>
      match renameFs env backupPath filePath fsAtFail with
      | .ok fsRestored => .err symlinkErr fsRestored
      | .error _ =>
        .err (.critical ("Critical error: Failed to rollback " ++ file
          ++ ". Backup at " ++ backupPath)) fsAtFail

/-- Per-file processing (lines 183-275): skip the unified file itself;
an absent path gets a fresh symlink; an existing symlink is retargeted
when wrong; a regular file is merged into the unified file and then
replaced with a link; every branch records the filename in .gitignore. -/
def processFile (P : PathOps) (env : Env) (opts : Options)
    (cwd unified unifiedPath : String) (fs : FS) (file : String) : RunResult :=
  if file = unified then .ok fs
  else
    let filePath := P.join cwd file
    match fs filePath with
    | .absent =>
      let symlinkTarget := expectedTargetOf P opts unifiedPath filePath
      if opts.dryRun then .ok (addToGitignore P opts cwd file fs)
      else
        match createSymlinkWithFallback env symlinkTarget filePath unifiedPath fs with
        | .error e => .err e fs
        | .ok fs1 => .ok (addToGitignore P opts cwd file fs1)
    | .symlink currentTarget =>
      let expectedTarget := expectedTargetOf P opts unifiedPath filePath
      if currentTarget = expectedTarget then .ok (addToGitignore P opts cwd file fs)
      else if opts.dryRun then .ok (addToGitignore P opts cwd file fs)
      else
        let fs1 := fs.set filePath .absent
        match createSymlinkWithFallback env expectedTarget filePath unifiedPath fs1 with
        | .error e => .err e fs1
        | .ok fs2 => .ok (addToGitignore P opts cwd file fs2)
    | .file content =>
      match fs unifiedPath with
      | .file unifiedTx =>
        let fs1 :=
          if containsSub unifiedTx (blockStartOf file) then fs
          else if opts.dryRun then fs
          else fs.set unifiedPath (.file (appendBlock file content unifiedTx))
        match replaceWithLink P env opts unifiedPath file filePath fs1 with
        | .ok fs2 => .ok (addToGitignore P opts cwd file fs2)
        | .err e fs2 => .err e fs2
      | _ => .err (.readFailed unifiedPath) fs

/-- The per-file loop (lines 182-275): stop at the first propagated
error. -/
def runFiles (P : PathOps) (env : Env) (opts : Options)
    (cwd unified unifiedPath : String) : List String → FS → RunResult
  | [], fs => .ok fs
  | f :: rest, fs =>
    match processFile P env opts cwd unified unifiedPath fs f with
    | .ok fs' => runFiles P env opts cwd unified unifiedPath rest fs'
    | .err e fs' => .err e fs'

/-- Unified-file bootstrap (lines 169-180): outside dry-run, create an
empty file when the path is absent. -/
def bootstrapUnified (opts : Options) (unifiedPath : String) (fs : FS) : FS :=
  if opts.dryRun then fs
  else
    match fs unifiedPath with
    | .absent => fs.set unifiedPath (.file [])
    | _ => fs

/-- Outcome of a whole invocation: either process.exit with a code, or the
async main completed normally. -/
inductive Outcome where
  | exited (code : Nat) (fs : FS)
  | completed (fs : FS)

/-- The filesystem component of an outcome. -/
def Outcome.fs : Outcome → FS
  | .exited _ fs => fs
  | .completed fs => fs

/-- The unified path resolution of line 160. -/
def unifiedPathOf (P : PathOps) (cwd unified : String) : String :=
  if P.isAbsolute unified then unified else P.join cwd unified

/-- The .gitignore path of line 57. -/
def gitignorePathOf (P : PathOps) (cwd : String) : String :=
  P.join cwd ".gitignore"

/-- The whole invocation (lines 96-281): parse arguments (an unknown
option exits 1), short-circuit on help / version / empty file list (exit
0), resolve the unified path — with `output` undefined this throws a
TypeError caught at top level (exit 1) — then bootstrap and run the
per-file loop; a propagated error is caught at top level and exits 1. -/
def mainRun (P : PathOps) (env : Env) (cwd : String) (argv : List String) (fs : FS) : Outcome :=
  match parseArgs argv with
  | .error _ => .exited 1 fs
  | .ok (opts, files) =>
    if opts.showHelp then .exited 0 fs
    else if opts.showVersion then .exited 0 fs
    else if files.isEmpty then .exited 0 fs
    else
      match opts.output with
      | none => .exited 1 fs
      | some unified =>
        let unifiedPath := unifiedPathOf P cwd unified
        let fs0 := bootstrapUnified opts unifiedPath fs
        match runFiles P env opts cwd unified unifiedPath files fs0 with
        | .ok fs' => .completed fs'
        | .err _ fs' => .exited 1 fs'

/-! Basic lemmas about the filesystem map and the ignore-list update. -/

theorem FS.set_same (fs : FS) (p : String) (e : FSEntry) : fs.set p e p = e := by
  simp [FS.set]

theorem FS.set_ne (fs : FS) (p q : String) (e : FSEntry) (h : q ≠ p) :
    fs.set p e q = fs q := by
  simp [FS.set, h]

/-- addToGitignore touches at most the .gitignore path. -/
theorem addToGitignore_frame (P : PathOps) (opts : Options) (cwd filename : String)
    (fs : FS) (q : String) (h : q ≠ gitignorePathOf P cwd) :
    addToGitignore P opts cwd filename fs q = fs q := by
  rw [gitignorePathOf] at h
  by_cases hd : opts.dryRun = true
  · simp [addToGitignore, hd]
  · simp only [addToGitignore, hd, if_false, Bool.false_eq_true]
    cases hfs : fs (P.join cwd ".gitignore") with
    | file content =>
      by_cases hh : gitignoreHas content filename = true
      · simp [hh]
      · simp [hh, FS.set_ne _ _ _ _ h]
    | absent => simp [FS.set_ne _ _ _ _ h]
    | symlink t => simp [FS.set_ne _ _ _ _ h]

/-! Lemmas about line splitting and joining. -/

theorem splitLines_nil : splitLines [] = [[]] := rfl

theorem splitLines_cons_nl (rest : List Char) :
    splitLines ('\n' :: rest) = [] :: splitLines rest := rfl

theorem splitLines_cons_ne (c : Char) (rest : List Char) (x : List Char)
    (xs : List (List Char)) (hc : c ≠ '\n') (hs : splitLines rest = x :: xs) :
    splitLines (c :: rest) = (c :: x) :: xs := by
  have hstep : splitLines (c :: rest) =
      match splitLines rest with
      | l :: ls => (c :: l) :: ls
      | [] => [[c]] := by
    conv_lhs => unfold splitLines
    simp [hc]
  rw [hstep, hs]

theorem splitLines_ne_nil (l : List Char) : splitLines l ≠ [] := by
  induction l with
  | nil => simp [splitLines_nil]
  | cons c rest ih =>
    by_cases hc : c = '\n'
    · subst hc
      rw [splitLines_cons_nl]
      simp
    · cases hs : splitLines rest with
      | nil => exact absurd hs ih
      | cons x xs =>
        rw [splitLines_cons_ne c rest x xs hc hs]
        simp

theorem splitLines_append_nl (a b : List Char) :
    splitLines (a ++ '\n' :: b) = splitLines a ++ splitLines b := by
  induction a with
  | nil => simp [splitLines_nil, splitLines_cons_nl]
  | cons c rest ih =>
    by_cases hc : c = '\n'
    · subst hc
      rw [List.cons_append, splitLines_cons_nl, splitLines_cons_nl, ih]
      simp
    · cases hs : splitLines rest with
      | nil => exact absurd hs (splitLines_ne_nil rest)
      | cons x xs =>
        have hs' : splitLines (rest ++ '\n' :: b) = x :: (xs ++ splitLines b) := by
          rw [ih, hs]
          simp
        rw [List.cons_append, splitLines_cons_ne c _ x (xs ++ splitLines b) hc hs',
            splitLines_cons_ne c rest x xs hc hs]
        simp

theorem splitLines_no_nl (l : List Char) (h : '\n' ∉ l) : splitLines l = [l] := by
  induction l with
  | nil => rfl
  | cons c rest ih =>
    have hc : c ≠ '\n' := fun hc => h (hc ▸ List.mem_cons_self c rest)
    have hr : splitLines rest = [rest] := ih (fun hm => h (List.mem_cons_of_mem c hm))
    rw [splitLines_cons_ne c rest rest [] hc hr]

theorem no_nl_of_mem_splitLines (l : List Char) : ∀ p ∈ splitLines l, '\n' ∉ p := by
  induction l with
  | nil =>
    intro p hp
    rw [splitLines_nil] at hp
    simp at hp
    simp [hp]
  | cons c rest ih =>
    intro p hp
    by_cases hc : c = '\n'
    · subst hc
      rw [splitLines_cons_nl] at hp
      rcases List.mem_cons.mp hp with h | h
      · simp [h]
      · exact ih p h
    · cases hs : splitLines rest with
      | nil => exact absurd hs (splitLines_ne_nil rest)
      | cons x xs =>
        rw [splitLines_cons_ne c rest x xs hc hs] at hp
        rcases List.mem_cons.mp hp with h | h
        · subst h
          intro hmem
          rcases List.mem_cons.mp hmem with h' | h'
          · exact hc h'.symm
          · exact ih x (by rw [hs]; exact List.mem_cons_self x xs) h'
        · exact ih p (by rw [hs]; exact List.mem_cons_of_mem x h)

theorem joinLines_cons (l : List Char) (ls : List (List Char)) (h : ls ≠ []) :
    joinLines (l :: ls) = l ++ '\n' :: joinLines ls := by
  cases ls with
  | nil => exact absurd rfl h
  | cons x xs => rfl

theorem splitLines_joinLines (ls : List (List Char)) (hne : ls ≠ [])
    (hnl : ∀ l ∈ ls, '\n' ∉ l) : splitLines (joinLines ls) = ls := by
  induction ls with
  | nil => exact absurd rfl hne
  | cons l rest ih =>
    cases rest with
    | nil =>
      show splitLines (joinLines [l]) = [l]
      exact splitLines_no_nl l (hnl l (List.mem_cons_self l []))
    | cons x xs =>
      rw [joinLines_cons l (x :: xs) (by simp), splitLines_append_nl,
          splitLines_no_nl l (hnl l (List.mem_cons_self l (x :: xs))),
          ih (by simp) (fun y hy => hnl y (List.mem_cons_of_mem l hy))]
      rfl

/-! Lemmas about the findIndex model. -/

theorem findLineIdx_nil (p : List Char → Bool) : findLineIdx p [] = none := rfl

theorem findLineIdx_cons (p : List Char → Bool) (x : List Char) (xs : List (List Char)) :
    findLineIdx p (x :: xs) =
      if p x then some 0 else (findLineIdx p xs).map (· + 1) := rfl

theorem findLineIdx_eq_some (p : List Char → Bool) (a : List (List Char))
    (x : List Char) (b : List (List Char))
    (ha : ∀ y ∈ a, p y = false) (hx : p x = true) :
    findLineIdx p (a ++ x :: b) = some a.length := by
  induction a with
  | nil =>
    rw [List.nil_append, findLineIdx_cons, hx]
    rfl
  | cons y ys ih =>
    have hy : p y = false := ha y (List.mem_cons_self y ys)
    rw [List.cons_append, findLineIdx_cons, hy]
    simp only [Bool.false_eq_true, if_false]
    rw [ih (fun z hz => ha z (List.mem_cons_of_mem y hz))]
    simp

theorem findLineIdx_none_iff (p : List Char → Bool) (l : List (List Char)) :
    findLineIdx p l = none ↔ ∀ y ∈ l, p y = false := by
  induction l with
  | nil => simp [findLineIdx_nil]
  | cons x xs ih =>
    rw [findLineIdx_cons]
    by_cases hx : p x = true
    · simp [hx]
    · have hx' : p x = false := by simpa using hx
      simp only [hx', Bool.false_eq_true, if_false]
      cases hfs : findLineIdx p xs with
      | some j =>
        simp only [Option.map_some']
        constructor
        · intro hcontr
          exact absurd hcontr (by simp)
        · intro hall
          have : findLineIdx p xs = none := (ih.mpr (fun y hy => hall y (List.mem_cons_of_mem x hy)))
          rw [hfs] at this
          exact absurd this (by simp)
      | none =>
        simp only [Option.map_none']
        constructor
        · intro _ y hy
          rcases List.mem_cons.mp hy with rfl | hmem
          · exact hx'
          · exact (ih.mp hfs) y hmem
        · intro _
          trivial

theorem findLineIdx_some_elim (p : List Char → Bool) (l : List (List Char)) (i : Nat)
    (h : findLineIdx p l = some i) :
    ∃ a x b, l = a ++ x :: b ∧ a.length = i ∧ p x = true ∧ ∀ y ∈ a, p y = false := by
  induction l generalizing i with
  | nil => rw [findLineIdx_nil] at h; exact absurd h (by simp)
  | cons x xs ih =>
    rw [findLineIdx_cons] at h
    by_cases hx : p x = true
    · rw [hx] at h
      simp only [if_true, Option.some.injEq] at h
      exact ⟨[], x, xs, by simp, by simp [← h], hx, by simp⟩
    · have hx' : p x = false := by simpa using hx
      rw [hx'] at h
      simp only [Bool.false_eq_true, if_false] at h
      cases hfs : findLineIdx p xs with
      | none => rw [hfs] at h; exact absurd h (by simp)
      | some j =>
        rw [hfs] at h
        simp only [Option.map_some', Option.some.injEq] at h
        rcases ih j hfs with ⟨a, y, b, hl, hlen, hy, hall⟩
        refine ⟨x :: a, y, b, by simp [hl], by simp [hlen, h], hy, ?_⟩
        intro z hz
        rcases List.mem_cons.mp hz with rfl | hmem
        · exact hx'
        · exact hall z hmem

/-! The ignore-list block theory. -/

/-- Facts about the literal marker lines, by computation. -/
theorem trim_giBlockStart : trimChars giBlockStart = giBlockStart := by decide

theorem trim_giBlockEnd : trimChars giBlockEnd = giBlockEnd := by decide

theorem giBlockStart_ne_end : giBlockStart ≠ giBlockEnd := by decide

theorem nl_not_mem_giBlockStart : '\n' ∉ giBlockStart := by decide

theorem nl_not_mem_giBlockEnd : '\n' ∉ giBlockEnd := by decide

theorem trim_nil_ne_giBlockStart : trimChars [] ≠ giBlockStart := by decide

theorem trim_nil_ne_giBlockEnd : trimChars [] ≠ giBlockEnd := by decide

/-- A filename is sane when it has no newline, is its own trim, and does
not collide with either ignore-list marker line. -/
def saneFilename (f : String) : Prop :=
  '\n' ∉ f.data ∧ trimChars f.data = f.data ∧
    f.data ≠ giBlockStart ∧ f.data ≠ giBlockEnd

/-- Sufficient condition for the duplicate-entry check to succeed, stated
on a decomposition of the split lines. -/
theorem gitignoreHas_intro (g : List Char) (f : String)
    (a c d : List (List Char)) (sl el w : List Char)
    (hL : splitLines g = a ++ sl :: (c ++ el :: d))
    (hsl : trimChars sl = giBlockStart) (hel : trimChars el = giBlockEnd)
    (ha : ∀ y ∈ a, trimChars y ≠ giBlockStart)
    (hc : ∀ y ∈ c, trimChars y ≠ giBlockEnd)
    (hw : w ∈ c) (hwf : trimChars w = f.data) :
    gitignoreHas g f = true := by
  have hstart : giStartIdx (splitLines g) = some a.length := by
    rw [giStartIdx, hL]
    exact findLineIdx_eq_some _ a sl (c ++ el :: d)
      (fun y hy => by simp [ha y hy]) (by simp [hsl])
  have hdrop : (splitLines g).drop (a.length + 1) = c ++ el :: d := by
    rw [hL]
    have hshape : a ++ sl :: (c ++ el :: d) = (a ++ [sl]) ++ (c ++ el :: d) := by simp
    rw [hshape]
    exact List.drop_left' (by simp)
  have hend : giEndRel (splitLines g) a.length = some c.length := by
    rw [giEndRel, hdrop]
    exact findLineIdx_eq_some _ c el d
      (fun y hy => by simp [hc y hy]) (by simp [hel])
  rw [gitignoreHas]
  simp only [hstart, hend, hdrop]
  rw [List.take_left' rfl]
  rw [List.any_eq_true]
  exact ⟨w, hw, by simp [hwf]⟩

/-- The lines of a freshly rendered ignore block. -/
theorem splitLines_giInitBlock (f : String) (hnl : '\n' ∉ f.data) :
    splitLines (giInitBlock f) = [giBlockStart, f.data, giBlockEnd, []] := by
  have h1 : giInitBlock f =
      giBlockStart ++ '\n' :: (f.data ++ '\n' :: (giBlockEnd ++ '\n' :: [])) := by
    simp [giInitBlock]
  rw [h1, splitLines_append_nl, splitLines_no_nl _ nl_not_mem_giBlockStart,
      splitLines_append_nl, splitLines_no_nl _ hnl,
      splitLines_append_nl, splitLines_no_nl _ nl_not_mem_giBlockEnd, splitLines_nil]
  rfl

/-- A freshly created .gitignore lists the filename. -/
theorem gitignoreHas_init (f : String) (hf : saneFilename f) :
    gitignoreHas (giInitBlock f) f = true := by
  obtain ⟨hnl, htrim, _, hne⟩ := hf
  refine gitignoreHas_intro _ f [] [f.data] [[]] giBlockStart giBlockEnd f.data ?_
    trim_giBlockStart trim_giBlockEnd (by simp) ?_ (by simp) htrim
  · rw [splitLines_giInitBlock f hnl]
    rfl
  · intro y hy
    rcases List.mem_singleton.mp hy with rfl
    rw [htrim]
    exact hne

/-- Branch equation: complete block found. -/
theorem gitignoreAdd_complete (f : String) (g : List Char) (s j : Nat)
    (hs : giStartIdx (splitLines g) = some s) (hj : giEndRel (splitLines g) s = some j) :
    gitignoreAdd f g =
      joinLines ((splitLines g).take (s + 1 + j) ++ [f.data]
        ++ (splitLines g).drop (s + 1 + j)) := by
  rw [gitignoreAdd]
  simp only [hs, hj]

/-- Branch equation: no start marker line at all. -/
theorem gitignoreAdd_no_start (f : String) (g : List Char)
    (hs : giStartIdx (splitLines g) = none) :
    gitignoreAdd f g =
      g ++ (if g.length > 0 then "\n\n".data else []) ++ giInitBlock f := by
  rw [gitignoreAdd]
  simp only [hs]

/-- Branch equation: start marker line present but no end marker after it
(a truncated block). -/
theorem gitignoreAdd_truncated (f : String) (g : List Char) (s : Nat)
    (hs : giStartIdx (splitLines g) = some s) (hj : giEndRel (splitLines g) s = none) :
    gitignoreAdd f g =
      g ++ (if g.length > 0 then "\n\n".data else []) ++ giInitBlock f := by
  rw [gitignoreAdd]
  simp only [hs, hj]

/-- Elimination form of the duplicate-entry check. -/
theorem gitignoreHas_elim (g : List Char) (f' : String)
    (h : gitignoreHas g f' = true) :
    ∃ s j, giStartIdx (splitLines g) = some s ∧ giEndRel (splitLines g) s = some j ∧
      (((splitLines g).drop (s + 1)).take j).any
        (fun line => decide (trimChars line = f'.data)) = true := by
  rw [gitignoreHas] at h
  cases hs : giStartIdx (splitLines g) with
  | none =>
    simp only [hs] at h
    exact absurd h (by simp)
  | some s =>
    simp only [hs] at h
    cases hj : giEndRel (splitLines g) s with
    | none =>
      simp only [hj] at h
      exact absurd h (by simp)
    | some j =>
      simp only [hj] at h
      exact ⟨s, j, rfl, hj, h⟩

/-- The lines of content extended by the separator and a fresh block. -/
theorem splitLines_append_sep_init (g : List Char) (f : String) (hnl : '\n' ∉ f.data) :
    splitLines (g ++ "\n\n".data ++ giInitBlock f) =
      splitLines g ++ ([] :: [giBlockStart, f.data, giBlockEnd, []]) := by
  have h1 : g ++ "\n\n".data ++ giInitBlock f = g ++ '\n' :: ('\n' :: giInitBlock f) := by
    simp
  rw [h1, splitLines_append_nl, splitLines_cons_nl, splitLines_giInitBlock f hnl]

/-- Decomposition of the split lines at a complete block. -/
theorem gi_complete_decomp (g : List Char) (s j : Nat)
    (hs : giStartIdx (splitLines g) = some s) (hj : giEndRel (splitLines g) s = some j) :
    ∃ a sl c el d,
      splitLines g = a ++ sl :: (c ++ el :: d) ∧ a.length = s ∧ c.length = j ∧
      trimChars sl = giBlockStart ∧ trimChars el = giBlockEnd ∧
      (∀ y ∈ a, trimChars y ≠ giBlockStart) ∧ (∀ y ∈ c, trimChars y ≠ giBlockEnd) := by
  rw [giStartIdx] at hs
  obtain ⟨a, sl, b, hL, hlen, hsl, hall⟩ := findLineIdx_some_elim _ _ _ hs
  have hdrop : (splitLines g).drop (s + 1) = b := by
    rw [hL, show a ++ sl :: b = (a ++ [sl]) ++ b by simp]
    exact List.drop_left' (by simp [hlen])
  rw [giEndRel, hdrop] at hj
  obtain ⟨c, el, d, hb, hclen, hel, hcall⟩ := findLineIdx_some_elim _ _ _ hj
  refine ⟨a, sl, c, el, d, ?_, hlen, hclen, by simpa using hsl, by simpa using hel, ?_, ?_⟩
  · rw [hL, hb]
  · intro y hy
    simpa using hall y hy
  · intro y hy
    simpa using hcall y hy

/-- gitignoreAdd makes the filename listed, and keeps every filename that
was already listed. -/
theorem gitignoreAdd_spec (f : String) (g : List Char) (hf : saneFilename f) :
    gitignoreHas (gitignoreAdd f g) f = true ∧
    ∀ f' : String, gitignoreHas g f' = true → gitignoreHas (gitignoreAdd f g) f' = true := by
  obtain ⟨hnl, htrim, hneS, hneE⟩ := hf
  cases hs : giStartIdx (splitLines g) with
  | some s =>
    cases hj : giEndRel (splitLines g) s with
    | some j =>
      obtain ⟨a, sl, c, el, d, hL, hlen, hclen, hsl, hel, ha, hc⟩ :=
        gi_complete_decomp g s j hs hj
      have htake : (splitLines g).take (s + 1 + j) = a ++ sl :: c := by
        rw [hL, show a ++ sl :: (c ++ el :: d) = (a ++ sl :: c) ++ (el :: d) by simp]
        refine List.take_left' ?_
        simp [hlen.symm, hclen.symm]
        omega
      have hdropE : (splitLines g).drop (s + 1 + j) = el :: d := by
        rw [hL, show a ++ sl :: (c ++ el :: d) = (a ++ sl :: c) ++ (el :: d) by simp]
        refine List.drop_left' ?_
        simp [hlen.symm, hclen.symm]
        omega
      have hadd := gitignoreAdd_complete f g s j hs hj
      rw [htake, hdropE] at hadd
      have hmem : ∀ y ∈ (a ++ sl :: c) ++ [f.data] ++ el :: d, '\n' ∉ y := by
        intro y hy
        rcases List.mem_append.mp hy with hy1 | hy2
        · rcases List.mem_append.mp hy1 with hy3 | hy4
          · rw [← htake] at hy3
            exact no_nl_of_mem_splitLines g y (List.take_subset _ _ hy3)
          · rcases List.mem_singleton.mp hy4 with rfl
            exact hnl
        · rw [← hdropE] at hy2
          exact no_nl_of_mem_splitLines g y (List.drop_subset _ _ hy2)
      have hround :
          splitLines (joinLines ((a ++ sl :: c) ++ [f.data] ++ el :: d)) =
            (a ++ sl :: c) ++ [f.data] ++ el :: d :=
        splitLines_joinLines _ (by simp) hmem
      have hshape :
          (a ++ sl :: c) ++ [f.data] ++ el :: d =
            a ++ sl :: ((c ++ [f.data]) ++ el :: d) := by
        simp
      have hcnew : ∀ y ∈ c ++ [f.data], trimChars y ≠ giBlockEnd := by
        intro y hy
        rcases List.mem_append.mp hy with hy1 | hy2
        · exact hc y hy1
        · rcases List.mem_singleton.mp hy2 with rfl
          rw [htrim]
          exact hneE
      constructor
      · rw [hadd]
        exact gitignoreHas_intro _ f a (c ++ [f.data]) d sl el f.data
          (by rw [hround, hshape]) hsl hel ha hcnew (by simp) htrim
      · intro f' hhas
        obtain ⟨s', j', hs', hj', hany⟩ := gitignoreHas_elim g f' hhas
        rw [hs] at hs'
        injection hs' with hss
        subst hss
        rw [hj] at hj'
        injection hj' with hjj
        subst hjj
        have hdrop1 : (splitLines g).drop (s + 1) = c ++ el :: d := by
          rw [hL, show a ++ sl :: (c ++ el :: d) = (a ++ [sl]) ++ (c ++ el :: d) by simp]
          exact List.drop_left' (by simp [hlen])
        have hslice : ((splitLines g).drop (s + 1)).take j = c := by
          rw [hdrop1]
          exact List.take_left' hclen
        rw [hslice] at hany
        obtain ⟨w, hw, hwf⟩ := List.any_eq_true.mp hany
        rw [hadd]
        exact gitignoreHas_intro _ f' a (c ++ [f.data]) d sl el w
          (by rw [hround, hshape]) hsl hel ha hcnew
          (List.mem_append_left _ hw) (by simpa using hwf)
    | none =>
      have hadd := gitignoreAdd_truncated f g s hs hj
      constructor
      · by_cases hg : g = []
        · subst hg
          have : giStartIdx (splitLines ([] : List Char)) = none := by decide
          rw [this] at hs
          exact absurd hs (by simp)
        · have hlen0 : 0 < g.length := List.length_pos.mpr hg
          have hsep : (if g.length > 0 then "\n\n".data else ([] : List Char)) = "\n\n".data := by
            simp [hlen0]
          rw [hsep] at hadd
          have hlines := splitLines_append_sep_init g f hnl
          rw [giStartIdx] at hs
          obtain ⟨a, sl, b, hL, hlen, hsl, hall⟩ := findLineIdx_some_elim _ _ _ hs
          have hdropb : (splitLines g).drop (s + 1) = b := by
            rw [hL, show a ++ sl :: b = (a ++ [sl]) ++ b by simp]
            exact List.drop_left' (by simp [hlen])
          rw [giEndRel, hdropb] at hj
          have hbend : ∀ y ∈ b, trimChars y ≠ giBlockEnd := by
            intro y hy
            simpa using (findLineIdx_none_iff _ _).mp hj y hy
          rw [hadd]
          refine gitignoreHas_intro _ f a
            (b ++ ([] :: [giBlockStart, f.data])) [[]] sl giBlockEnd f.data
            ?_ (by simpa using hsl) trim_giBlockEnd
            (fun y hy => by simpa using hall y hy) ?_ (by simp) htrim
          · rw [hlines, hL]
            simp
          · intro y hy
            rcases List.mem_append.mp hy with hy1 | hy2
            · exact hbend y hy1
            · rcases List.mem_cons.mp hy2 with rfl | hy3
              · exact trim_nil_ne_giBlockEnd
              · rcases List.mem_cons.mp hy3 with rfl | hy4
                · rw [trim_giBlockStart]
                  exact giBlockStart_ne_end
                · rcases List.mem_singleton.mp hy4 with rfl
                  rw [htrim]
                  exact hneE
      · intro f' hhas
        obtain ⟨s', j', hs', hj', _⟩ := gitignoreHas_elim g f' hhas
        rw [hs] at hs'
        injection hs' with hss
        subst hss
        rw [hj] at hj'
        exact absurd hj' (by simp)
  | none =>
    have hadd := gitignoreAdd_no_start f g hs
    constructor
    · by_cases hg : g = []
      · subst hg
        rw [hadd]
        have hzero : (if ([] : List Char).length > 0 then "\n\n".data else ([] : List Char)) = [] := by
          simp
        rw [hzero]
        simp only [List.nil_append]
        exact gitignoreHas_init f ⟨hnl, htrim, hneS, hneE⟩
      · have hlen0 : 0 < g.length := List.length_pos.mpr hg
        have hsep : (if g.length > 0 then "\n\n".data else ([] : List Char)) = "\n\n".data := by
          simp [hlen0]
        rw [hsep] at hadd
        have hlines := splitLines_append_sep_init g f hnl
        have hall : ∀ y ∈ splitLines g, trimChars y ≠ giBlockStart := by
          intro y hy
          rw [giStartIdx] at hs
          simpa using (findLineIdx_none_iff _ _).mp hs y hy
        rw [hadd]
        refine gitignoreHas_intro _ f (splitLines g ++ [[]])
          [f.data] [[]] giBlockStart giBlockEnd f.data
          ?_ trim_giBlockStart trim_giBlockEnd ?_ ?_ (by simp) htrim
        · rw [hlines]
          simp
        · intro y hy
          rcases List.mem_append.mp hy with hy1 | hy2
          · exact hall y hy1
          · rcases List.mem_singleton.mp hy2 with rfl
            exact trim_nil_ne_giBlockStart
        · intro y hy
          rcases List.mem_singleton.mp hy with rfl
          rw [htrim]
          exact hneE
    · intro f' hhas
      obtain ⟨s', j', hs', hj', _⟩ := gitignoreHas_elim g f' hhas
      rw [hs] at hs'
      exact absurd hs' (by simp)

/-- Branch equation of addToGitignore: ignore file exists. -/
theorem addToGitignore_eq_of_file (P : PathOps) (opts : Options) (cwd f : String)
    (fs : FS) (g : List Char)
    (hdry : opts.dryRun = false) (hgp : fs (gitignorePathOf P cwd) = .file g) :
    addToGitignore P opts cwd f fs =
      if gitignoreHas g f then fs
      else fs.set (gitignorePathOf P cwd) (.file (gitignoreAdd f g)) := by
  rw [gitignorePathOf] at hgp
  rw [addToGitignore, gitignorePathOf]
  simp only [hdry, Bool.false_eq_true, if_false, hgp]

/-- Branch equation of addToGitignore: ignore file absent. -/
theorem addToGitignore_eq_of_absent (P : PathOps) (opts : Options) (cwd f : String)
    (fs : FS)
    (hdry : opts.dryRun = false) (hgp : fs (gitignorePathOf P cwd) = .absent) :
    addToGitignore P opts cwd f fs =
      fs.set (gitignorePathOf P cwd) (.file (giInitBlock f)) := by
  rw [gitignorePathOf] at hgp
  rw [addToGitignore, gitignorePathOf]
  simp only [hdry, Bool.false_eq_true, if_false, hgp]

/-- The filename is recorded inside the ignore-list block. -/
def giListed (P : PathOps) (cwd : String) (fs : FS) (f : String) : Prop :=
  ∃ g, fs (gitignorePathOf P cwd) = .file g ∧ gitignoreHas g f = true

/-- Outside dry-run, addToGitignore records the filename and keeps every
recorded filename recorded, provided the ignore path holds a file or is
absent. -/
theorem addToGitignore_spec (P : PathOps) (opts : Options) (cwd f : String) (fs : FS)
    (hdry : opts.dryRun = false) (hf : saneFilename f)
    (hgi : fs (gitignorePathOf P cwd) = .absent ∨
      ∃ g, fs (gitignorePathOf P cwd) = .file g) :
    giListed P cwd (addToGitignore P opts cwd f fs) f ∧
    ∀ f', giListed P cwd fs f' → giListed P cwd (addToGitignore P opts cwd f fs) f' := by
  rcases hgi with hgp | ⟨g, hgp⟩
  · rw [addToGitignore_eq_of_absent P opts cwd f fs hdry hgp]
    constructor
    · exact ⟨giInitBlock f, FS.set_same _ _ _, gitignoreHas_init f hf⟩
    · intro f' hl
      obtain ⟨g', hg', _⟩ := hl
      rw [hgp] at hg'
      exact absurd hg' (by simp)
  · rw [addToGitignore_eq_of_file P opts cwd f fs g hdry hgp]
    by_cases hh : gitignoreHas g f = true
    · simp only [hh, if_true]
      exact ⟨⟨g, hgp, hh⟩, fun f' h => h⟩
    · simp only [hh, if_false]
      constructor
      · exact ⟨gitignoreAdd f g, FS.set_same _ _ _, (gitignoreAdd_spec f g hf).1⟩
      · intro f' hl
        obtain ⟨g', hg', hh'⟩ := hl
        rw [hgp] at hg'
        injection hg' with hgg
        rw [← hgg] at hh'
        exact ⟨gitignoreAdd f g, FS.set_same _ _ _,
          (gitignoreAdd_spec f g hf).2 f' hh'⟩

/-- A filename that is already recorded makes addToGitignore a literal
no-op on the filesystem value. -/
theorem addToGitignore_noop (P : PathOps) (opts : Options) (cwd f : String) (fs : FS)
    (hl : giListed P cwd fs f) : addToGitignore P opts cwd f fs = fs := by
  obtain ⟨g, hg, hh⟩ := hl
  by_cases hd : opts.dryRun = true
  · rw [addToGitignore]
    simp [hd]
  · have hd' : opts.dryRun = false := by simpa using hd
    rw [addToGitignore_eq_of_file P opts cwd f fs g hd' hg]
    simp only [hh, if_true]

/-- The backup path is distinct from the path it backs up. -/
theorem backupPathOf_ne (env : Env) (filePath : String) :
    backupPathOf env filePath ≠ filePath := by
  intro h
  have hlen : (backupPathOf env filePath).length = filePath.length := by rw [h]
  rw [backupPathOf, String.length_append, String.length_append] at hlen
  have h8 : (".backup-" : String).length = 8 := rfl
  omega

/-- With no injected failures, replace-with-link renames to the backup,
links, and removes the backup. -/
theorem replaceWithLink_happy (P : PathOps) (env : Env) (opts : Options)
    (unifiedPath file filePath : String) (fs : FS) (C : List Char)
    (henvS : ∀ l t, env.symlinkErr l t = none)
    (henvR : ∀ s d, env.renameErr s d = false)
    (hdry : opts.dryRun = false)
    (hfp : fs filePath = .file C) :
    replaceWithLink P env opts unifiedPath file filePath fs =
      .ok ((((fs.set filePath .absent).set (backupPathOf env filePath)
          (.file C)).set filePath
          (.symlink (expectedTargetOf P opts unifiedPath filePath))).set
          (backupPathOf env filePath) .absent) := by
  rw [replaceWithLink]
  simp only [hdry, Bool.false_eq_true, if_false]
  rw [renameFs]
  simp only [henvR, Bool.false_eq_true, if_false, hfp]
  rw [createSymlinkWithFallback]
  simp only [henvS]

/-- giListed only looks at the ignore path. -/
theorem giListed_of_eq (P : PathOps) (cwd : String) (fs1 fs2 : FS) (f : String)
    (h : fs2 (gitignorePathOf P cwd) = fs1 (gitignorePathOf P cwd))
    (hl : giListed P cwd fs1 f) : giListed P cwd fs2 f := by
  obtain ⟨g, hg, hh⟩ := hl
  exact ⟨g, by rw [h, hg], hh⟩

/-- Happy-path step: with no injected failures and suitably distinct paths,
processing one file succeeds, converges the file to a correct symlink,
records it in the ignore list, keeps the unified file a regular file,
keeps every recorded filename recorded, and touches no other path. -/
theorem processFile_happy (P : PathOps) (env : Env) (opts : Options)
    (cwd unified unifiedPath file : String) (fs : FS)
    (henvS : ∀ l t, env.symlinkErr l t = none)
    (henvR : ∀ s d, env.renameErr s d = false)
    (hdry : opts.dryRun = false)
    (hne : file ≠ unified)
    (hf : saneFilename file)
    (huni : ∃ u, fs unifiedPath = .file u)
    (hgi : fs (gitignorePathOf P cwd) = .absent ∨
      ∃ g, fs (gitignorePathOf P cwd) = .file g)
    (hfU : P.join cwd file ≠ unifiedPath)
    (hfG : P.join cwd file ≠ gitignorePathOf P cwd)
    (hbU : backupPathOf env (P.join cwd file) ≠ unifiedPath)
    (hbG : backupPathOf env (P.join cwd file) ≠ gitignorePathOf P cwd)
    (hUG : unifiedPath ≠ gitignorePathOf P cwd) :
    ∃ fs', processFile P env opts cwd unified unifiedPath fs file = .ok fs' ∧
      fs' (P.join cwd file) =
        .symlink (expectedTargetOf P opts unifiedPath (P.join cwd file)) ∧
      giListed P cwd fs' file ∧
      (∃ u', fs' unifiedPath = .file u') ∧
      (∀ f', giListed P cwd fs f' → giListed P cwd fs' f') ∧
      (∀ q, q ≠ P.join cwd file → q ≠ unifiedPath → q ≠ gitignorePathOf P cwd →
        q ≠ backupPathOf env (P.join cwd file) → fs' q = fs q) := by
  obtain ⟨u, hu⟩ := huni
  rw [processFile]
  simp only [if_neg hne]
  cases hcase : fs (P.join cwd file) with
  | absent =>
    simp only [hcase, hdry, Bool.false_eq_true, if_false]
    rw [createSymlinkWithFallback]
    simp only [henvS]
    have h1g : (fs.set (P.join cwd file)
        (.symlink (expectedTargetOf P opts unifiedPath (P.join cwd file))))
        (gitignorePathOf P cwd) = fs (gitignorePathOf P cwd) :=
      FS.set_ne _ _ _ _ (Ne.symm hfG)
    have hgi1 := hgi
    rw [← h1g] at hgi1
    obtain ⟨hlisted, hkeep⟩ := addToGitignore_spec P opts cwd file _ hdry hf hgi1
    refine ⟨_, rfl, ?_, hlisted, ?_, ?_, ?_⟩
    · rw [addToGitignore_frame _ _ _ _ _ _ hfG]
      exact FS.set_same _ _ _
    · refine ⟨u, ?_⟩
      rw [addToGitignore_frame _ _ _ _ _ _ hUG, FS.set_ne _ _ _ _ (Ne.symm hfU), hu]
    · intro f' hl
      exact hkeep f' (giListed_of_eq P cwd fs _ f' h1g hl)
    · intro q hq1 hq2 hq3 hq4
      rw [addToGitignore_frame _ _ _ _ _ _ hq3, FS.set_ne _ _ _ _ hq1]
  | symlink t =>
    simp only [hcase]
    by_cases ht : t = expectedTargetOf P opts unifiedPath (P.join cwd file)
    · simp only [ht, if_pos rfl]
      obtain ⟨hlisted, hkeep⟩ := addToGitignore_spec P opts cwd file fs hdry hf hgi
      refine ⟨_, rfl, ?_, hlisted, ?_, ?_, ?_⟩
      · rw [addToGitignore_frame _ _ _ _ _ _ hfG, hcase, ht]
      · exact ⟨u, by rw [addToGitignore_frame _ _ _ _ _ _ hUG, hu]⟩
      · intro f' hl
        exact hkeep f' hl
      · intro q hq1 hq2 hq3 hq4
        rw [addToGitignore_frame _ _ _ _ _ _ hq3]
    · simp only [if_neg ht, hdry, Bool.false_eq_true, if_false]
      rw [createSymlinkWithFallback]
      simp only [henvS]
      have h2g : ((fs.set (P.join cwd file) .absent).set (P.join cwd file)
          (.symlink (expectedTargetOf P opts unifiedPath (P.join cwd file))))
          (gitignorePathOf P cwd) = fs (gitignorePathOf P cwd) := by
        rw [FS.set_ne _ _ _ _ (Ne.symm hfG), FS.set_ne _ _ _ _ (Ne.symm hfG)]
      have hgi2 := hgi
      rw [← h2g] at hgi2
      obtain ⟨hlisted, hkeep⟩ := addToGitignore_spec P opts cwd file _ hdry hf hgi2
      refine ⟨_, rfl, ?_, hlisted, ?_, ?_, ?_⟩
      · rw [addToGitignore_frame _ _ _ _ _ _ hfG]
        exact FS.set_same _ _ _
      · refine ⟨u, ?_⟩
        rw [addToGitignore_frame _ _ _ _ _ _ hUG, FS.set_ne _ _ _ _ (Ne.symm hfU),
          FS.set_ne _ _ _ _ (Ne.symm hfU), hu]
      · intro f' hl
        exact hkeep f' (giListed_of_eq P cwd fs _ f' h2g hl)
      · intro q hq1 hq2 hq3 hq4
        rw [addToGitignore_frame _ _ _ _ _ _ hq3, FS.set_ne _ _ _ _ hq1,
          FS.set_ne _ _ _ _ hq1]
  | file C =>
    simp only [hcase, hu, hdry, Bool.false_eq_true, if_false]
    have hbf : backupPathOf env (P.join cwd file) ≠ P.join cwd file :=
      backupPathOf_ne env (P.join cwd file)
    by_cases hc : containsSub u (blockStartOf file) = true
    · simp only [hc, if_true]
      rw [replaceWithLink_happy P env opts unifiedPath file (P.join cwd file) fs C
        henvS henvR hdry hcase]
      have h4g : ((((fs.set (P.join cwd file) .absent).set
          (backupPathOf env (P.join cwd file)) (.file C)).set (P.join cwd file)
          (.symlink (expectedTargetOf P opts unifiedPath (P.join cwd file)))).set
          (backupPathOf env (P.join cwd file)) .absent)
          (gitignorePathOf P cwd) = fs (gitignorePathOf P cwd) := by
        rw [FS.set_ne _ _ _ _ (Ne.symm hbG), FS.set_ne _ _ _ _ (Ne.symm hfG),
          FS.set_ne _ _ _ _ (Ne.symm hbG), FS.set_ne _ _ _ _ (Ne.symm hfG)]
      have hgi4 := hgi
      rw [← h4g] at hgi4
      obtain ⟨hlisted, hkeep⟩ := addToGitignore_spec P opts cwd file _ hdry hf hgi4
      refine ⟨_, rfl, ?_, hlisted, ?_, ?_, ?_⟩
      · rw [addToGitignore_frame _ _ _ _ _ _ hfG, FS.set_ne _ _ _ _ (Ne.symm hbf)]
        exact FS.set_same _ _ _
      · refine ⟨u, ?_⟩
        rw [addToGitignore_frame _ _ _ _ _ _ hUG, FS.set_ne _ _ _ _ (Ne.symm hbU),
          FS.set_ne _ _ _ _ (Ne.symm hfU), FS.set_ne _ _ _ _ (Ne.symm hbU),
          FS.set_ne _ _ _ _ (Ne.symm hfU), hu]
      · intro f' hl
        exact hkeep f' (giListed_of_eq P cwd fs _ f' h4g hl)
      · intro q hq1 hq2 hq3 hq4
        rw [addToGitignore_frame _ _ _ _ _ _ hq3, FS.set_ne _ _ _ _ hq4,
          FS.set_ne _ _ _ _ hq1, FS.set_ne _ _ _ _ hq4, FS.set_ne _ _ _ _ hq1]
    · simp only [hc, Bool.false_eq_true, if_false]
      have hmfp : (fs.set unifiedPath (.file (appendBlock file C u)))
          (P.join cwd file) = .file C := by
        rw [FS.set_ne _ _ _ _ hfU, hcase]
      rw [replaceWithLink_happy P env opts unifiedPath file (P.join cwd file) _ C
        henvS henvR hdry hmfp]
      have h4g : (((((fs.set unifiedPath (.file (appendBlock file C u))).set
          (P.join cwd file) .absent).set
          (backupPathOf env (P.join cwd file)) (.file C)).set (P.join cwd file)
          (.symlink (expectedTargetOf P opts unifiedPath (P.join cwd file)))).set
          (backupPathOf env (P.join cwd file)) .absent)
          (gitignorePathOf P cwd) = fs (gitignorePathOf P cwd) := by
        rw [FS.set_ne _ _ _ _ (Ne.symm hbG), FS.set_ne _ _ _ _ (Ne.symm hfG),
          FS.set_ne _ _ _ _ (Ne.symm hbG), FS.set_ne _ _ _ _ (Ne.symm hfG),
          FS.set_ne _ _ _ _ (Ne.symm hUG)]
      have hgi4 := hgi
      rw [← h4g] at hgi4
      obtain ⟨hlisted, hkeep⟩ := addToGitignore_spec P opts cwd file _ hdry hf hgi4
      refine ⟨_, rfl, ?_, hlisted, ?_, ?_, ?_⟩
      · rw [addToGitignore_frame _ _ _ _ _ _ hfG, FS.set_ne _ _ _ _ (Ne.symm hbf)]
        exact FS.set_same _ _ _
      · refine ⟨appendBlock file C u, ?_⟩
        rw [addToGitignore_frame _ _ _ _ _ _ hUG, FS.set_ne _ _ _ _ (Ne.symm hbU),
          FS.set_ne _ _ _ _ (Ne.symm hfU), FS.set_ne _ _ _ _ (Ne.symm hbU),
          FS.set_ne _ _ _ _ (Ne.symm hfU)]
        exact FS.set_same _ _ _
      · intro f' hl
        exact hkeep f' (giListed_of_eq P cwd fs _ f' h4g hl)
      · intro q hq1 hq2 hq3 hq4
        rw [addToGitignore_frame _ _ _ _ _ _ hq3, FS.set_ne _ _ _ _ hq4,
          FS.set_ne _ _ _ _ hq1, FS.set_ne _ _ _ _ hq4, FS.set_ne _ _ _ _ hq1,
          FS.set_ne _ _ _ _ hq2]

/-- Dry-run makes addToGitignore a literal no-op. -/
theorem addToGitignore_dry (P : PathOps) (opts : Options) (cwd f : String) (fs : FS)
    (hdry : opts.dryRun = true) : addToGitignore P opts cwd f fs = fs := by
  rw [addToGitignore]
  simp [hdry]

/-- Convergence of one input file: correct symlink and ignore-list entry. -/
def converged (P : PathOps) (opts : Options) (cwd unifiedPath : String)
    (fs : FS) (f : String) : Prop :=
  fs (P.join cwd f) = .symlink (expectedTargetOf P opts unifiedPath (P.join cwd f)) ∧
  giListed P cwd fs f

/-- A skipped or converged file is processed as a literal no-op. -/
theorem processFile_noop (P : PathOps) (env : Env) (opts : Options)
    (cwd unified unifiedPath file : String) (fs : FS)
    (h : file = unified ∨ converged P opts cwd unifiedPath fs file) :
    processFile P env opts cwd unified unifiedPath fs file = .ok fs := by
  rw [processFile]
  by_cases hne : file = unified
  · simp [hne]
  · rcases h with h | ⟨hlink, hlisted⟩
    · exact absurd h hne
    · simp only [if_neg hne, hlink, if_pos rfl]
      rw [addToGitignore_noop P opts cwd file fs hlisted]
      simp

/-- Dry-run processing never changes the filesystem value. -/
theorem processFile_dryRun (P : PathOps) (env : Env) (opts : Options)
    (cwd unified unifiedPath file : String) (fs : FS)
    (hdry : opts.dryRun = true) :
    processFile P env opts cwd unified unifiedPath fs file = .ok fs ∨
    ∃ e, processFile P env opts cwd unified unifiedPath fs file = .err e fs := by
  rw [processFile]
  by_cases hne : file = unified
  · left
    simp [hne]
  · simp only [if_neg hne]
    cases hcase : fs (P.join cwd file) with
    | absent =>
      left
      simp only [hcase, hdry, if_true]
      rw [addToGitignore_dry P opts cwd file fs hdry]
    | symlink t =>
      left
      by_cases ht : t = expectedTargetOf P opts unifiedPath (P.join cwd file)
      · simp only [hcase, if_pos ht]
        rw [addToGitignore_dry P opts cwd file fs hdry]
      · simp only [hcase, if_neg ht, hdry, if_true]
        rw [addToGitignore_dry P opts cwd file fs hdry]
    | file C =>
      cases hU : fs unifiedPath with
      | file u =>
        left
        simp only [hcase, hU, hdry, if_true, ite_self]
        rw [replaceWithLink]
        simp only [hdry, if_true]
        rw [addToGitignore_dry P opts cwd file fs hdry]
      | absent =>
        right
        exact ⟨.readFailed unifiedPath, by simp [hcase, hU]⟩
      | symlink t =>
        right
        exact ⟨.readFailed unifiedPath, by simp [hcase, hU]⟩

/-- Equation: empty file list. -/
theorem runFiles_nil (P : PathOps) (env : Env) (opts : Options)
    (cwd unified unifiedPath : String) (fs : FS) :
    runFiles P env opts cwd unified unifiedPath [] fs = .ok fs := rfl

/-- Equation: cons file list. -/
theorem runFiles_cons (P : PathOps) (env : Env) (opts : Options)
    (cwd unified unifiedPath f : String) (rest : List String) (fs : FS) :
    runFiles P env opts cwd unified unifiedPath (f :: rest) fs =
      match processFile P env opts cwd unified unifiedPath fs f with
      | .ok fs' => runFiles P env opts cwd unified unifiedPath rest fs'
      | .err e fs' => .err e fs' := rfl

/-- A run over files that are all skipped or converged is a literal no-op. -/
theorem runFiles_noop (P : PathOps) (env : Env) (opts : Options)
    (cwd unified unifiedPath : String) (files : List String) (fs : FS)
    (h : ∀ f ∈ files, f = unified ∨ converged P opts cwd unifiedPath fs f) :
    runFiles P env opts cwd unified unifiedPath files fs = .ok fs := by
  induction files with
  | nil => rfl
  | cons f rest ih =>
    rw [runFiles_cons,
      processFile_noop P env opts cwd unified unifiedPath f fs (h f (List.mem_cons_self f rest))]
    exact ih (fun g hg => h g (List.mem_cons_of_mem f hg))

/-- Dry-run never changes the filesystem across the loop. -/
theorem runFiles_dryRun (P : PathOps) (env : Env) (opts : Options)
    (cwd unified unifiedPath : String) (files : List String) (fs : FS)
    (hdry : opts.dryRun = true) :
    runFiles P env opts cwd unified unifiedPath files fs = .ok fs ∨
    ∃ e, runFiles P env opts cwd unified unifiedPath files fs = .err e fs := by
  induction files with
  | nil => exact Or.inl rfl
  | cons f rest ih =>
    rcases processFile_dryRun P env opts cwd unified unifiedPath f fs hdry with h | ⟨e, h⟩
    · rw [runFiles_cons, h]
      exact ih
    · right
      exact ⟨e, by rw [runFiles_cons, h]⟩

/-- Happy-path loop: the run succeeds, every argument is converged at the
end, the unified path still holds a file, and previously converged files
with non-colliding paths stay converged. -/
theorem runFiles_happy (P : PathOps) (env : Env) (opts : Options)
    (cwd unified unifiedPath : String) (files : List String) (fs : FS)
    (henvS : ∀ l t, env.symlinkErr l t = none)
    (henvR : ∀ s d, env.renameErr s d = false)
    (hdry : opts.dryRun = false)
    (hsane : ∀ f ∈ files, saneFilename f)
    (hfU : ∀ f ∈ files, f ≠ unified → P.join cwd f ≠ unifiedPath)
    (hfG : ∀ f ∈ files, f ≠ unified → P.join cwd f ≠ gitignorePathOf P cwd)
    (hbU : ∀ f ∈ files, f ≠ unified → backupPathOf env (P.join cwd f) ≠ unifiedPath)
    (hbG : ∀ f ∈ files, f ≠ unified →
      backupPathOf env (P.join cwd f) ≠ gitignorePathOf P cwd)
    (hFb : ∀ f ∈ files, ∀ g ∈ files, f ≠ unified → g ≠ unified →
      P.join cwd f ≠ backupPathOf env (P.join cwd g))
    (hUG : unifiedPath ≠ gitignorePathOf P cwd)
    (huni : ∃ u, fs unifiedPath = .file u)
    (hgi : fs (gitignorePathOf P cwd) = .absent ∨
      ∃ g, fs (gitignorePathOf P cwd) = .file g) :
    ∃ fs₁, runFiles P env opts cwd unified unifiedPath files fs = .ok fs₁ ∧
      (∃ u, fs₁ unifiedPath = .file u) ∧
      (∀ f₀ : String, P.join cwd f₀ ≠ unifiedPath →
        P.join cwd f₀ ≠ gitignorePathOf P cwd →
        (∀ g ∈ files, g ≠ unified → P.join cwd f₀ ≠ backupPathOf env (P.join cwd g)) →
        converged P opts cwd unifiedPath fs f₀ → converged P opts cwd unifiedPath fs₁ f₀) ∧
      (∀ f ∈ files, f = unified ∨ converged P opts cwd unifiedPath fs₁ f) := by
  induction files generalizing fs with
  | nil => exact ⟨fs, rfl, huni, fun f₀ _ _ _ hc => hc, by simp⟩
  | cons f rest ih =>
    have hmem : f ∈ f :: rest := List.mem_cons_self f rest
    by_cases hfu : f = unified
    · have hstep : processFile P env opts cwd unified unifiedPath fs f = .ok fs :=
        processFile_noop P env opts cwd unified unifiedPath f fs (Or.inl hfu)
      obtain ⟨fs₁, hrun, huni₁, hpres, hconv⟩ :=
        ih fs (fun g hg => hsane g (List.mem_cons_of_mem f hg))
          (fun g hg => hfU g (List.mem_cons_of_mem f hg))
          (fun g hg => hfG g (List.mem_cons_of_mem f hg))
          (fun g hg => hbU g (List.mem_cons_of_mem f hg))
          (fun g hg => hbG g (List.mem_cons_of_mem f hg))
          (fun g hg g' hg' => hFb g (List.mem_cons_of_mem f hg) g' (List.mem_cons_of_mem f hg'))
          huni hgi
      refine ⟨fs₁, ?_, huni₁, ?_, ?_⟩
      · rw [runFiles_cons, hstep]
        exact hrun
      · intro f₀ h1 h2 h3 hc
        exact hpres f₀ h1 h2 (fun g hg hgu => h3 g (List.mem_cons_of_mem f hg) hgu) hc
      · intro g hg
        rcases List.mem_cons.mp hg with rfl | hg'
        · exact Or.inl hfu
        · exact hconv g hg'
    · obtain ⟨fs', hstep, hlink, hlisted, huni', hkeep, hframe⟩ :=
        processFile_happy P env opts cwd unified unifiedPath f fs henvS henvR hdry hfu
          (hsane f hmem) huni hgi (hfU f hmem hfu) (hfG f hmem hfu)
          (hbU f hmem hfu) (hbG f hmem hfu) hUG
      have hgi' : fs' (gitignorePathOf P cwd) = .absent ∨
          ∃ g, fs' (gitignorePathOf P cwd) = .file g := by
        obtain ⟨g, hg, _⟩ := hlisted
        exact Or.inr ⟨g, hg⟩
      obtain ⟨fs₁, hrun, huni₁, hpres, hconv⟩ :=
        ih fs' (fun g hg => hsane g (List.mem_cons_of_mem f hg))
          (fun g hg => hfU g (List.mem_cons_of_mem f hg))
          (fun g hg => hfG g (List.mem_cons_of_mem f hg))
          (fun g hg => hbU g (List.mem_cons_of_mem f hg))
          (fun g hg => hbG g (List.mem_cons_of_mem f hg))
          (fun g hg g' hg' => hFb g (List.mem_cons_of_mem f hg) g' (List.mem_cons_of_mem f hg'))
          huni' hgi'
      have hstepPres : ∀ f₀ : String, P.join cwd f₀ ≠ unifiedPath →
          P.join cwd f₀ ≠ gitignorePathOf P cwd →
          P.join cwd f₀ ≠ backupPathOf env (P.join cwd f) →
          converged P opts cwd unifiedPath fs f₀ →
          converged P opts cwd unifiedPath fs' f₀ := by
        intro f₀ h1 h2 h3 hc
        obtain ⟨hl0, hg0⟩ := hc
        constructor
        · by_cases hpp : P.join cwd f₀ = P.join cwd f
          · rw [hpp] at hl0 ⊢
            exact hlink
          · rw [hframe _ hpp h1 h2 h3]
            exact hl0
        · exact hkeep f₀ hg0
      refine ⟨fs₁, ?_, huni₁, ?_, ?_⟩
      · rw [runFiles_cons, hstep]
        exact hrun
      · intro f₀ h1 h2 h3 hc
        refine hpres f₀ h1 h2 (fun g hg hgu => h3 g (List.mem_cons_of_mem f hg) hgu) ?_
        exact hstepPres f₀ h1 h2 (h3 f hmem hfu) hc
      · intro g hg
        rcases List.mem_cons.mp hg with rfl | hg'
        · right
          refine hpres g (hfU g hmem hfu) (hfG g hmem hfu)
            (fun g' hg' hgu' => hFb g hmem g' (List.mem_cons_of_mem g hg') hfu hgu') ?_
          exact ⟨hlink, hlisted⟩
        · exact hconv g hg'

/-- Bootstrap equations. -/
theorem bootstrapUnified_dry (opts : Options) (unifiedPath : String) (fs : FS)
    (hdry : opts.dryRun = true) : bootstrapUnified opts unifiedPath fs = fs := by
  rw [bootstrapUnified]
  simp [hdry]

theorem bootstrapUnified_file (opts : Options) (unifiedPath : String) (fs : FS)
    (u : List Char) (hu : fs unifiedPath = .file u) :
    bootstrapUnified opts unifiedPath fs = fs := by
  rw [bootstrapUnified]
  by_cases hd : opts.dryRun = true
  · simp [hd]
  · simp only [hd, Bool.false_eq_true, if_false, hu]

theorem bootstrapUnified_absent (opts : Options) (unifiedPath : String) (fs : FS)
    (hdry : opts.dryRun = false) (hu : fs unifiedPath = .absent) :
    bootstrapUnified opts unifiedPath fs = fs.set unifiedPath (.file []) := by
  rw [bootstrapUnified]
  simp only [hdry, Bool.false_eq_true, if_false, hu]

/-- Unfolding of mainRun on a successfully parsed argument vector that
reaches the per-file loop. -/
theorem mainRun_eq_loop (P : PathOps) (env : Env) (cwd : String) (argv : List String)
    (fs : FS) (opts : Options) (files : List String) (unified : String)
    (hparse : parseArgs argv = .ok (opts, files))
    (hhelp : opts.showHelp = false) (hver : opts.showVersion = false)
    (hfiles : files ≠ []) (hout : opts.output = some unified) :
    mainRun P env cwd argv fs =
      match runFiles P env opts cwd unified (unifiedPathOf P cwd unified) files
        (bootstrapUnified opts (unifiedPathOf P cwd unified) fs) with
      | .ok fs' => .completed fs'
      | .err _ fs' => .exited 1 fs' := by
  have hempty : files.isEmpty = false := by
    cases files with
    | nil => exact absurd rfl hfiles
    | cons a as => rfl
  rw [mainRun]
  simp only [hparse, hhelp, hver, hempty, Bool.false_eq_true, if_false, hout]

/-- Auxiliary: running again from a state where every argument is
converged is a no-op of the whole invocation. -/
theorem mainRun_noop (P : PathOps) (env : Env) (cwd : String) (argv : List String)
    (fs₁ : FS) (opts : Options) (files : List String) (unified : String)
    (hparse : parseArgs argv = .ok (opts, files))
    (hhelp : opts.showHelp = false) (hver : opts.showVersion = false)
    (hfiles : files ≠ []) (hout : opts.output = some unified)
    (huni : ∃ u, fs₁ (unifiedPathOf P cwd unified) = .file u)
    (hconv : ∀ f ∈ files, f = unified ∨
      converged P opts cwd (unifiedPathOf P cwd unified) fs₁ f) :
    mainRun P env cwd argv fs₁ = .completed fs₁ := by
  obtain ⟨u, hu⟩ := huni
  rw [mainRun_eq_loop P env cwd argv fs₁ opts files unified hparse hhelp hver hfiles hout,
    bootstrapUnified_file opts _ fs₁ u hu,
    runFiles_noop P env opts cwd unified _ files fs₁ hconv]

/-- C1: running the reconciliation twice with the same argument list (same
files, same options) from the state reached after the first run produces an
identical final filesystem state: with no injected link or rename failures,
sane filenames, and input paths that do not collide with the unified file,
the ignore file, or a backup path, a second invocation from the first run's
final state completes with exactly that state — the unified file gains no
duplicate blocks, the ignore-list block gains no duplicate entries, and
every symlink is unchanged by the second run. -/
theorem c1_reconciliation_idempotent (P : PathOps) (env : Env) (cwd : String)
    (argv : List String) (fs fs₁ : FS) (opts : Options) (files : List String)
    (unified : String)
    (hparse : parseArgs argv = .ok (opts, files))
    (hout : opts.output = some unified)
    (henvS : ∀ l t, env.symlinkErr l t = none)
    (henvR : ∀ s d, env.renameErr s d = false)
    (hsane : ∀ f ∈ files, saneFilename f)
    (hfU : ∀ f ∈ files, f ≠ unified →
      P.join cwd f ≠ unifiedPathOf P cwd unified)
    (hfG : ∀ f ∈ files, f ≠ unified → P.join cwd f ≠ gitignorePathOf P cwd)
    (hbU : ∀ f ∈ files, f ≠ unified →
      backupPathOf env (P.join cwd f) ≠ unifiedPathOf P cwd unified)
    (hbG : ∀ f ∈ files, f ≠ unified →
      backupPathOf env (P.join cwd f) ≠ gitignorePathOf P cwd)
    (hFb : ∀ f ∈ files, ∀ g ∈ files, f ≠ unified → g ≠ unified →
      P.join cwd f ≠ backupPathOf env (P.join cwd g))
    (hUG : unifiedPathOf P cwd unified ≠ gitignorePathOf P cwd)
    (hfs0 : fs (unifiedPathOf P cwd unified) = .absent ∨
      ∃ u, fs (unifiedPathOf P cwd unified) = .file u)
    (hgi0 : fs (gitignorePathOf P cwd) = .absent ∨
      ∃ g, fs (gitignorePathOf P cwd) = .file g)
    (h1 : mainRun P env cwd argv fs = .completed fs₁) :
    mainRun P env cwd argv fs₁ = .completed fs₁ := by
  by_cases hhelp : opts.showHelp = true
  · rw [mainRun] at h1
    simp [hparse, hhelp] at h1
  · have hhelp' : opts.showHelp = false := by simpa using hhelp
    by_cases hver : opts.showVersion = true
    · rw [mainRun] at h1
      simp [hparse, hhelp', hver] at h1
    · have hver' : opts.showVersion = false := by simpa using hver
      by_cases hfe : files = []
      · subst hfe
        rw [mainRun] at h1
        simp [hparse, hhelp', hver'] at h1
      · rw [mainRun_eq_loop P env cwd argv fs opts files unified hparse hhelp' hver'
          hfe hout] at h1
        by_cases hdry : opts.dryRun = true
        · rw [bootstrapUnified_dry opts _ fs hdry] at h1
          rcases runFiles_dryRun P env opts cwd unified
              (unifiedPathOf P cwd unified) files fs hdry with hr | ⟨e, hr⟩
          · rw [hr] at h1
            injection h1 with he
            subst he
            rw [mainRun_eq_loop P env cwd argv fs opts files unified hparse hhelp' hver'
              hfe hout, bootstrapUnified_dry opts _ fs hdry, hr]
          · rw [hr] at h1
            exact absurd h1 (by simp)
        · have hdry' : opts.dryRun = false := by simpa using hdry
          have hboot : ∃ fs0, bootstrapUnified opts (unifiedPathOf P cwd unified) fs = fs0 ∧
              (∃ u, fs0 (unifiedPathOf P cwd unified) = .file u) ∧
              (fs0 (gitignorePathOf P cwd) = .absent ∨
                ∃ g, fs0 (gitignorePathOf P cwd) = .file g) := by
            rcases hfs0 with ha | ⟨u, hu⟩
            · refine ⟨fs.set (unifiedPathOf P cwd unified) (.file []),
                bootstrapUnified_absent opts _ fs hdry' ha, ⟨[], FS.set_same _ _ _⟩, ?_⟩
              rw [FS.set_ne _ _ _ _ (Ne.symm hUG)]
              exact hgi0
            · exact ⟨fs, bootstrapUnified_file opts _ fs u hu, ⟨u, hu⟩, hgi0⟩
          obtain ⟨fs0, hb0, huni0, hgib⟩ := hboot
          rw [hb0] at h1
          obtain ⟨fs₁', hrun, huni₁, hpres, hconv⟩ :=
            runFiles_happy P env opts cwd unified (unifiedPathOf P cwd unified) files fs0
              henvS henvR hdry' hsane hfU hfG hbU hbG hFb hUG huni0 hgib
          rw [hrun] at h1
          injection h1 with he
          subst he
          exact mainRun_noop P env cwd argv fs₁' opts files unified hparse hhelp' hver'
            hfe hout huni₁ hconv

/-- The escaped form never begins with a backtick. -/
theorem escapeBackticks_head_ne (l : List Char) (c : Char) (r : List Char)
    (h : escapeBackticks l = c :: r) : c ≠ '\x60' := by
  cases l with
  | nil => simp [escapeBackticks] at h
  | cons d t =>
    rw [escapeBackticks] at h
    by_cases hd : d = '\x60'
    · simp only [hd, if_pos rfl] at h
      injection h with h1 _
      rw [← h1]
      decide
    · simp only [hd, if_neg hd] at h
      injection h with h1 _
      rw [← h1]
      exact hd

/-- Backtick escaping is injective on character lists. -/
theorem escapeBackticks_inj (l₁ : List Char) : ∀ l₂ : List Char,
    escapeBackticks l₁ = escapeBackticks l₂ → l₁ = l₂ := by
  induction l₁ with
  | nil =>
    intro l₂ h
    cases l₂ with
    | nil => rfl
    | cons d t =>
      rw [escapeBackticks, escapeBackticks] at h
      by_cases hd : d = '\x60' <;> simp [hd] at h
  | cons c t ih =>
    intro l₂ h
    cases l₂ with
    | nil =>
      rw [escapeBackticks, escapeBackticks] at h
      by_cases hc : c = '\x60' <;> simp [hc] at h
    | cons d t₂ =>
      rw [escapeBackticks, escapeBackticks] at h
      by_cases hc : c = '\x60' <;> by_cases hd : d = '\x60'
      · subst hc
        subst hd
        simp only [if_pos rfl, List.cons_append, List.nil_append] at h
        injection h with _ h
        injection h with _ h
        rw [ih t₂ h]
      · subst hc
        simp only [if_pos rfl, if_neg hd, List.cons_append, List.nil_append] at h
        injection h with h1 h2
        exact absurd (escapeBackticks_head_ne t₂ _ _ h2.symm) (by simp)
      · subst hd
        simp only [if_pos rfl, if_neg hc, List.cons_append, List.nil_append] at h
        injection h with h1 h2
        exact absurd (escapeBackticks_head_ne t _ _ h2) (by simp)
      · simp only [if_neg hc, if_neg hd, List.cons_append, List.nil_append] at h
        injection h with h1 h2
        rw [h1, ih t₂ h2]

/-- C4: for every input filename containing a backtick, the escaped start
marker is unique: a distinct filename never yields the same start marker,
and in particular a filename without any backtick never collides with it. -/
theorem c4_marker_uniqueness (f : String) (hf : '\x60' ∈ f.data) :
    (∀ g : String, f ≠ g → blockStartOf f ≠ blockStartOf g) ∧
    (∀ g : String, '\x60' ∉ g.data → blockStartOf f ≠ blockStartOf g) := by
  have hinj : ∀ g : String, blockStartOf f = blockStartOf g → f = g := by
    intro g h
    rw [blockStartOf, blockStartOf, List.append_assoc, List.append_assoc] at h
    have h1 : escapeBackticks f.data ++ "\x60".data =
        escapeBackticks g.data ++ "\x60".data :=
      List.append_cancel_left h
    have h2 : escapeBackticks f.data = escapeBackticks g.data :=
      List.append_cancel_right h1
    have h3 : f.data = g.data := escapeBackticks_inj f.data g.data h2
    cases f
    cases g
    simp at h3
    rw [h3]
  constructor
  · intro g hne h
    exact hne (hinj g h)
  · intro g hg h
    rw [hinj g h] at hf
    exact hg hf

/-- C4 witness data is a closed check on concrete filenames. -/
theorem c4_marker_uniqueness_witness :
    '\x60' ∈ ("a\x60b.md" : String).data ∧
    (blockStartOf "a\x60b.md" ≠ blockStartOf "a\\\x60b.md" ∧
      blockStartOf "a\x60b.md" ≠ blockStartOf "ab.md") := by
  refine ⟨by decide, ?_, ?_⟩
  · exact (c4_marker_uniqueness "a\x60b.md" (by decide)).1 "a\\\x60b.md" (by decide)
  · exact (c4_marker_uniqueness "a\x60b.md" (by decide)).2 "ab.md" (by decide)

/-- C8: the link-creation primitive, on a symlink failure, copies the
unified file's bytes to the input path when the platform is win32 and the
code is EPERM or ENOENT; on any other failure, or the same codes on a
non-win32 platform, the error propagates. -/
theorem c8_windows_fallback (env : Env) (target linkPath fallbackSource : String)
    (fs : FS) (code : ErrCode) (c : List Char)
    (hsym : env.symlinkErr linkPath target = some code)
    (hsrc : fs fallbackSource = .file c) :
    (env.platform = "win32" ∧ (code = .EPERM ∨ code = .ENOENT) →
      createSymlinkWithFallback env target linkPath fallbackSource fs =
        .ok (fs.set linkPath (.file c))) ∧
    (¬(env.platform = "win32" ∧ (code = .EPERM ∨ code = .ENOENT)) →
      createSymlinkWithFallback env target linkPath fallbackSource fs =
        .error (.symlinkFailed code)) := by
  rw [createSymlinkWithFallback]
  simp only [hsym]
  constructor
  · intro h
    rw [if_pos h, copyFile]
    simp only [hsrc]
  · intro h
    rw [if_neg h]

/-- The empty filesystem used by the closed-instance checks. -/
def emptyFS : FS := fun _ => .absent

/-- Concrete path operations used by the closed-instance checks. -/
def samplePathOps : PathOps :=
  { join := fun a b => a ++ "/" ++ b, dirname := fun _ => "w",
    relative := fun _ u => u, isAbsolute := fun _ => false }

/-- A failure-free concrete environment. -/
def sampleEnv : Env :=
  { platform := "linux", symlinkErr := fun _ _ => none,
    renameErr := fun _ _ => false, now := 7 }

/-- A win32 environment whose symlink creation always fails with EPERM. -/
def sampleEnvWin : Env :=
  { platform := "win32", symlinkErr := fun _ _ => some .EPERM,
    renameErr := fun _ _ => false, now := 7 }

/-- C8 witness: a concrete win32 EPERM failure falls back to a copy. -/
theorem c8_windows_fallback_witness :
    createSymlinkWithFallback sampleEnvWin
        "T" "w/CLAUDE.md" "w/AGENTS.md" (emptyFS.set "w/AGENTS.md" (.file ['h'])) =
      .ok ((emptyFS.set "w/AGENTS.md" (.file ['h'])).set "w/CLAUDE.md" (.file ['h'])) := by
  have h := c8_windows_fallback sampleEnvWin
    "T" "w/CLAUDE.md" "w/AGENTS.md" (emptyFS.set "w/AGENTS.md" (.file ['h']))
    .EPERM ['h'] rfl (FS.set_same _ _ _)
  exact h.1 ⟨rfl, Or.inl rfl⟩

/-- C9: the token immediately following -o or --output is consumed
unconditionally as the output path, even when it begins with a dash: in
particular "-o --dry-run" sets the output name to the literal string
"--dry-run" and does not enable dry-run mode. -/
theorem c9_output_consumes_next_token :
    (∀ (opts : Options) (files : List String) (v : String) (rest : List String),
      parseArgsAux opts files ("-o" :: v :: rest) =
        parseArgsAux { opts with output := some v } files rest) ∧
    (∀ (opts : Options) (files : List String) (v : String) (rest : List String),
      parseArgsAux opts files ("--output" :: v :: rest) =
        parseArgsAux { opts with output := some v } files rest) ∧
    parseArgs ["-o", "--dry-run"] =
      .ok ({ defaultOptions with output := some "--dry-run" }, []) :=
  ⟨fun _ _ _ _ => rfl, fun _ _ _ _ => rfl, rfl⟩

/-- C6 counterexample: invoking with -o as the only (and thus dangling)
argument does not exit non-zero — the run prints the no-input-files usage
message and exits with code 0, refuting the claimed usage error. -/
theorem c6_counterexample :
    mainRun samplePathOps sampleEnv "w" ["-o"] emptyFS = .exited 0 emptyFS := rfl

/-- C6 amended: the -o or --output flag given no following value leaves the
output undefined; if no input files were collected the program prints usage
and exits 0, and if input files were given the run fails while resolving
the unified path and exits 1 — in both cases the filesystem is untouched
and no mutation is attempted. -/
theorem c6_missing_output_value (P : PathOps) (env : Env) (cwd : String)
    (argv : List String) (fs : FS) (opts : Options) (files : List String)
    (hparse : parseArgs argv = .ok (opts, files))
    (hhelp : opts.showHelp = false) (hver : opts.showVersion = false)
    (hout : opts.output = none) :
    mainRun P env cwd argv fs = .exited (if files.isEmpty then 0 else 1) fs := by
  rw [mainRun]
  simp only [hparse, hhelp, hver, Bool.false_eq_true, if_false, hout]
  by_cases hfe : files.isEmpty = true
  · simp [hfe]
  · have hfe' : files.isEmpty = false := by simpa using hfe
    simp [hfe']

/-- C6 witness: with an input file and a dangling -o the run exits 1 with
the filesystem untouched. -/
theorem c6_missing_output_value_witness :
    mainRun samplePathOps sampleEnv "w" ["a.md", "-o"] emptyFS = .exited 1 emptyFS := by
  have h := c6_missing_output_value samplePathOps sampleEnv "w" ["a.md", "-o"] emptyFS
    { defaultOptions with output := none } ["a.md"] rfl rfl rfl rfl
  simpa using h

/-- C5: with the --dry-run flag, no file under the working directory is
created, modified, or deleted by the run, whatever state each input starts
in: the resulting filesystem of the invocation equals the initial one. -/
theorem c5_dry_run_purity (P : PathOps) (env : Env) (cwd : String)
    (argv : List String) (fs : FS) (opts : Options) (files : List String)
    (hparse : parseArgs argv = .ok (opts, files))
    (hdry : opts.dryRun = true) :
    (mainRun P env cwd argv fs).fs = fs := by
  rw [mainRun]
  simp only [hparse]
  by_cases hhelp : opts.showHelp = true
  · simp [hhelp, Outcome.fs]
  · have hhelp' : opts.showHelp = false := by simpa using hhelp
    by_cases hver : opts.showVersion = true
    · simp [hhelp', hver, Outcome.fs]
    · have hver' : opts.showVersion = false := by simpa using hver
      by_cases hfe : files.isEmpty = true
      · simp [hhelp', hver', hfe, Outcome.fs]
      · have hfe' : files.isEmpty = false := by simpa using hfe
        simp only [hhelp', hver', hfe', Bool.false_eq_true, if_false]
        cases hout : opts.output with
        | none => rfl
        | some unified =>
          show (match runFiles P env opts cwd unified (unifiedPathOf P cwd unified) files
              (bootstrapUnified opts (unifiedPathOf P cwd unified) fs) with
            | RunResult.ok fs' => Outcome.completed fs'
            | RunResult.err _ fs' => Outcome.exited 1 fs').fs = fs
          rw [bootstrapUnified_dry opts _ fs hdry]
          rcases runFiles_dryRun P env opts cwd unified
              (unifiedPathOf P cwd unified) files fs hdry with hr | ⟨e, hr⟩
          · rw [hr]
            rfl
          · rw [hr]
            rfl

/-- C5 witness: a dry run over one absent and one regular input leaves a
concrete filesystem unchanged. -/
theorem c5_dry_run_purity_witness :
    (mainRun samplePathOps sampleEnv "w" ["--dry-run", "CLAUDE.md", "GEMINI.md"]
      (emptyFS.set "w/CLAUDE.md" (.file ['r']))).fs =
      emptyFS.set "w/CLAUDE.md" (.file ['r']) :=
  c5_dry_run_purity samplePathOps sampleEnv "w" ["--dry-run", "CLAUDE.md", "GEMINI.md"]
    (emptyFS.set "w/CLAUDE.md" (.file ['r']))
    { defaultOptions with dryRun := true } ["CLAUDE.md", "GEMINI.md"] rfl rfl

/-- C7: for an input that is a symbolic link, the expected target is the
unified path under --absolute and otherwise the relative path from the
input's directory; one pass retargets a wrong link to the expected target
and leaves a correct link untouched. -/
theorem c7_link_convergence (P : PathOps) (env : Env) (opts : Options)
    (cwd unified unifiedPath file t : String) (fs : FS)
    (hdry : opts.dryRun = false)
    (hne : file ≠ unified)
    (hcase : fs (P.join cwd file) = .symlink t)
    (henvS : env.symlinkErr (P.join cwd file)
      (expectedTargetOf P opts unifiedPath (P.join cwd file)) = none)
    (hfG : P.join cwd file ≠ gitignorePathOf P cwd) :
    expectedTargetOf P opts unifiedPath (P.join cwd file) =
      (if opts.absolute then unifiedPath
        else P.relative (P.dirname (P.join cwd file)) unifiedPath) ∧
    ∃ fs', processFile P env opts cwd unified unifiedPath fs file = .ok fs' ∧
      fs' (P.join cwd file) =
        .symlink (expectedTargetOf P opts unifiedPath (P.join cwd file)) ∧
      (t = expectedTargetOf P opts unifiedPath (P.join cwd file) →
        fs' (P.join cwd file) = fs (P.join cwd file)) := by
  refine ⟨rfl, ?_⟩
  rw [processFile]
  simp only [if_neg hne, hcase]
  by_cases ht : t = expectedTargetOf P opts unifiedPath (P.join cwd file)
  · rw [if_pos ht]
    refine ⟨_, rfl, ?_, ?_⟩
    · rw [addToGitignore_frame _ _ _ _ _ _ hfG, hcase, ht]
    · intro _
      rw [addToGitignore_frame _ _ _ _ _ _ hfG]
      exact hcase
  · simp only [if_neg ht, hdry, Bool.false_eq_true, if_false]
    rw [createSymlinkWithFallback]
    simp only [henvS]
    refine ⟨_, rfl, ?_, ?_⟩
    · rw [addToGitignore_frame _ _ _ _ _ _ hfG]
      exact FS.set_same _ _ _
    · intro h
      exact absurd h ht

/-- C7 witness: a concrete wrong-target link is retargeted in one pass. -/
theorem c7_link_convergence_witness :
    ∃ fs', processFile samplePathOps sampleEnv defaultOptions "w" "AGENTS.md"
        "w/AGENTS.md" (emptyFS.set "w/CLAUDE.md" (.symlink "bogus")) "CLAUDE.md" = .ok fs' ∧
      fs' (samplePathOps.join "w" "CLAUDE.md") =
        .symlink (expectedTargetOf samplePathOps defaultOptions "w/AGENTS.md"
          (samplePathOps.join "w" "CLAUDE.md")) ∧
      ("bogus" = expectedTargetOf samplePathOps defaultOptions "w/AGENTS.md"
          (samplePathOps.join "w" "CLAUDE.md") →
        fs' (samplePathOps.join "w" "CLAUDE.md") =
          (emptyFS.set "w/CLAUDE.md" (.symlink "bogus"))
            (samplePathOps.join "w" "CLAUDE.md")) :=
  (c7_link_convergence samplePathOps sampleEnv defaultOptions "w" "AGENTS.md"
    "w/AGENTS.md" "CLAUDE.md" "bogus" (emptyFS.set "w/CLAUDE.md" (.symlink "bogus"))
    rfl (by decide) rfl rfl (by decide)).2

/-- C3: for a regular input file the content merge is a pure append: when
the unified text already contains the start marker nothing is written, and
otherwise exactly separator + start + newline + trimmed content + newline +
end + newline is appended, the separator being the blank line exactly when
the unified text is non-empty and does not already end with one; the prior
unified text is always a prefix of the result. -/
theorem c3_merge_pure_append (P : PathOps) (env : Env) (opts : Options)
    (cwd unified unifiedPath file : String) (fs : FS) (C U : List Char)
    (henvS : ∀ l t, env.symlinkErr l t = none)
    (henvR : ∀ s d, env.renameErr s d = false)
    (hdry : opts.dryRun = false)
    (hne : file ≠ unified)
    (hfile : fs (P.join cwd file) = .file C)
    (huni : fs unifiedPath = .file U)
    (hfU : P.join cwd file ≠ unifiedPath)
    (hbU : backupPathOf env (P.join cwd file) ≠ unifiedPath)
    (hUG : unifiedPath ≠ gitignorePathOf P cwd) :
    ∃ fs', processFile P env opts cwd unified unifiedPath fs file = .ok fs' ∧
      fs' unifiedPath = .file (mergeStep file C U) ∧
      (containsSub U (blockStartOf file) = true → mergeStep file C U = U) ∧
      (containsSub U (blockStartOf file) = false →
        mergeStep file C U =
          U ++ (if U.length > 0 && !endsWithBlank U then "\n\n".data else [])
            ++ blockStartOf file ++ ['\n'] ++ trimChars C ++ ['\n']
            ++ blockEndOf file ++ ['\n']) ∧
      U <+: mergeStep file C U := by
  have hbf : backupPathOf env (P.join cwd file) ≠ P.join cwd file :=
    backupPathOf_ne env (P.join cwd file)
  rw [processFile]
  simp only [if_neg hne, hfile, huni, hdry, Bool.false_eq_true, if_false]
  by_cases hc : containsSub U (blockStartOf file) = true
  · simp only [hc, if_true]
    rw [replaceWithLink_happy P env opts unifiedPath file (P.join cwd file) fs C
      henvS henvR hdry hfile]
    refine ⟨_, rfl, ?_, fun _ => by rw [mergeStep, if_pos hc], fun hcf => absurd hcf (by simp),
      by rw [mergeStep, if_pos hc]⟩
    rw [addToGitignore_frame _ _ _ _ _ _ hUG, FS.set_ne _ _ _ _ (Ne.symm hbU),
      FS.set_ne _ _ _ _ (Ne.symm hfU), FS.set_ne _ _ _ _ (Ne.symm hbU),
      FS.set_ne _ _ _ _ (Ne.symm hfU), huni, mergeStep, if_pos hc]
  · simp only [hc, Bool.false_eq_true, if_false]
    have hmfp : (fs.set unifiedPath (.file (appendBlock file C U)))
        (P.join cwd file) = .file C := by
      rw [FS.set_ne _ _ _ _ hfU, hfile]
    rw [replaceWithLink_happy P env opts unifiedPath file (P.join cwd file) _ C
      henvS henvR hdry hmfp]
    have hmerge : mergeStep file C U = appendBlock file C U := by
      rw [mergeStep, if_neg (by simp [hc])]
    refine ⟨_, rfl, ?_, fun hct => hct.elim, fun _ => by rw [hmerge, appendBlock], ?_⟩
    · rw [addToGitignore_frame _ _ _ _ _ _ hUG, FS.set_ne _ _ _ _ (Ne.symm hbU),
        FS.set_ne _ _ _ _ (Ne.symm hfU), FS.set_ne _ _ _ _ (Ne.symm hbU),
        FS.set_ne _ _ _ _ (Ne.symm hfU), FS.set_same, hmerge]
    · rw [hmerge]
      have hform : appendBlock file C U =
          U ++ ((if U.length > 0 && !endsWithBlank U then "\n\n".data else [])
            ++ (blockStartOf file ++ (['\n'] ++ (trimChars C ++ (['\n']
            ++ (blockEndOf file ++ ['\n'])))))) := by
        rw [appendBlock]
        simp [List.append_assoc]
      rw [hform]
      exact List.prefix_append _ _

/-- Replace-with-link under an unrecoverable symlink failure: the backup
is renamed back when possible, else the critical message names the backup
path. -/
theorem replaceWithLink_fail (P : PathOps) (env : Env) (opts : Options)
    (unifiedPath file filePath : String) (fs : FS) (C : List Char) (code : ErrCode)
    (hdry : opts.dryRun = false)
    (hfp : fs filePath = .file C)
    (hsym : env.symlinkErr filePath
      (expectedTargetOf P opts unifiedPath filePath) = some code)
    (hnofb : ¬(env.platform = "win32" ∧ (code = .EPERM ∨ code = .ENOENT)))
    (hren1 : env.renameErr filePath (backupPathOf env filePath) = false) :
    (env.renameErr (backupPathOf env filePath) filePath = false →
      replaceWithLink P env opts unifiedPath file filePath fs =
        .err (.symlinkFailed code)
          ((((fs.set filePath .absent).set (backupPathOf env filePath)
            (.file C)).set (backupPathOf env filePath) .absent).set filePath (.file C))) ∧
    (env.renameErr (backupPathOf env filePath) filePath = true →
      replaceWithLink P env opts unifiedPath file filePath fs =
        .err (.critical ("Critical error: Failed to rollback " ++ file
          ++ ". Backup at " ++ backupPathOf env filePath))
          ((fs.set filePath .absent).set (backupPathOf env filePath) (.file C))) := by
  rw [replaceWithLink]
  simp only [hdry, Bool.false_eq_true, if_false]
  rw [renameFs]
  simp only [hren1, Bool.false_eq_true, if_false, hfp]
  rw [createSymlinkWithFallback]
  simp only [hsym, if_neg hnofb]
  constructor
  · intro hren2
    rw [renameFs]
    simp only [hren2, Bool.false_eq_true, if_false, FS.set_same]
  · intro hren2
    rw [renameFs]
    simp only [hren2, if_true]

/-- C2: when replacing a regular input file with a symlink and link
creation fails outside the Windows fallback, the backup is renamed back so
the original content is at the original path again and the link-creation
error propagates, aborting the loop; if that restore rename itself fails,
the run aborts with the critical message naming the backup path and no
further file of the argument list is processed. -/
theorem c2_rollback_on_link_failure (P : PathOps) (env : Env) (opts : Options)
    (cwd unified unifiedPath file : String) (rest : List String) (fs : FS)
    (C U : List Char) (code : ErrCode)
    (hdry : opts.dryRun = false)
    (hne : file ≠ unified)
    (hfile : fs (P.join cwd file) = .file C)
    (huni : fs unifiedPath = .file U)
    (hfU : P.join cwd file ≠ unifiedPath)
    (hsym : env.symlinkErr (P.join cwd file)
      (expectedTargetOf P opts unifiedPath (P.join cwd file)) = some code)
    (hnofb : ¬(env.platform = "win32" ∧ (code = .EPERM ∨ code = .ENOENT)))
    (hren1 : env.renameErr (P.join cwd file)
      (backupPathOf env (P.join cwd file)) = false) :
    (env.renameErr (backupPathOf env (P.join cwd file)) (P.join cwd file) = false →
      ∃ fs', runFiles P env opts cwd unified unifiedPath (file :: rest) fs =
          .err (.symlinkFailed code) fs' ∧
        fs' (P.join cwd file) = .file C ∧
        fs' (backupPathOf env (P.join cwd file)) = .absent) ∧
    (env.renameErr (backupPathOf env (P.join cwd file)) (P.join cwd file) = true →
      ∃ fs', runFiles P env opts cwd unified unifiedPath (file :: rest) fs =
          .err (.critical ("Critical error: Failed to rollback " ++ file
            ++ ". Backup at " ++ backupPathOf env (P.join cwd file))) fs') := by
  have hbf : backupPathOf env (P.join cwd file) ≠ P.join cwd file :=
    backupPathOf_ne env (P.join cwd file)
  rw [runFiles_cons, processFile]
  simp only [if_neg hne, hfile, huni, hdry, Bool.false_eq_true, if_false]
  by_cases hc : containsSub U (blockStartOf file) = true
  · simp only [hc, if_true]
    obtain ⟨hA, hB⟩ := replaceWithLink_fail P env opts unifiedPath file
      (P.join cwd file) fs C code hdry hfile hsym hnofb hren1
    constructor
    · intro hren2
      rw [hA hren2]
      refine ⟨_, rfl, FS.set_same _ _ _, ?_⟩
      rw [FS.set_ne _ _ _ _ hbf, FS.set_same]
    · intro hren2
      rw [hB hren2]
      exact ⟨_, rfl⟩
  · simp only [hc, Bool.false_eq_true, if_false]
    have hmfp : (fs.set unifiedPath (.file (appendBlock file C U)))
        (P.join cwd file) = .file C := by
      rw [FS.set_ne _ _ _ _ hfU, hfile]
    obtain ⟨hA, hB⟩ := replaceWithLink_fail P env opts unifiedPath file
      (P.join cwd file) _ C code hdry hmfp hsym hnofb hren1
    constructor
    · intro hren2
      rw [hA hren2]
      refine ⟨_, rfl, FS.set_same _ _ _, ?_⟩
      rw [FS.set_ne _ _ _ _ hbf, FS.set_same]
    · intro hren2
      rw [hB hren2]
      exact ⟨_, rfl⟩

/-- C10: when the ignore file has a start marker line with no end marker
line after it, a run appends an entirely new block at the end of the file
(so the line count of start markers grows from at least one to one more),
and the duplicate-entry check consults exactly the lines strictly between
the first start marker line and the first end marker line after it. -/
theorem c10_truncated_block (f : String) (g : List Char) (s : Nat)
    (hf : saneFilename f)
    (hs : giStartIdx (splitLines g) = some s)
    (hj : giEndRel (splitLines g) s = none) :
    gitignoreAdd f g =
      g ++ (if g.length > 0 then "\n\n".data else []) ++ giInitBlock f ∧
    (splitLines (gitignoreAdd f g)).countP
        (fun line => decide (trimChars line = giBlockStart)) =
      (splitLines g).countP (fun line => decide (trimChars line = giBlockStart)) + 1 ∧
    1 ≤ (splitLines g).countP (fun line => decide (trimChars line = giBlockStart)) ∧
    (∀ (gc : List Char) (f' : String) (sIdx jIdx : Nat),
      giStartIdx (splitLines gc) = some sIdx →
      giEndRel (splitLines gc) sIdx = some jIdx →
      gitignoreHas gc f' =
        (((splitLines gc).drop (sIdx + 1)).take jIdx).any
          (fun line => decide (trimChars line = f'.data))) := by
  obtain ⟨hnl, htrim, hneS, hneE⟩ := hf
  have hadd := gitignoreAdd_truncated f g s hs hj
  have hg : g ≠ [] := by
    intro hgg
    subst hgg
    have : giStartIdx (splitLines ([] : List Char)) = none := by decide
    rw [this] at hs
    exact absurd hs (by simp)
  have hlen0 : 0 < g.length := List.length_pos.mpr hg
  have hsep : (if g.length > 0 then "\n\n".data else ([] : List Char)) = "\n\n".data := by
    simp [hlen0]
  refine ⟨hadd, ?_, ?_, ?_⟩
  · rw [hadd, hsep, splitLines_append_sep_init g f hnl, List.countP_append]
    have hone : List.countP (fun line => decide (trimChars line = giBlockStart))
        ([] :: [giBlockStart, f.data, giBlockEnd, []]) = 1 := by
      simp only [List.countP_cons, List.countP_nil]
      rw [trim_giBlockStart]
      have h1 : decide (trimChars ([] : List Char) = giBlockStart) = false := by decide
      have h2 : decide (giBlockStart = giBlockStart) = true := by simp
      have h3 : decide (trimChars f.data = giBlockStart) = false := by
        simp [htrim, hneS]
      have h4 : decide (trimChars giBlockEnd = giBlockStart) = false := by decide
      rw [h1, h2, h3, h4]
      simp
    rw [hone]
  · rw [giStartIdx] at hs
    obtain ⟨a, sl, b, hL, hlen, hsl, _⟩ := findLineIdx_some_elim _ _ _ hs
    rw [hL, List.countP_append, List.countP_cons, hsl]
    simp
    omega
  · intro gc f' sIdx jIdx hs' hj'
    rw [gitignoreHas]
    simp only [hs', hj']

/-- C1 witness: a concrete second run from the first run's final state
completes with exactly that state. -/
theorem c1_reconciliation_idempotent_witness :
    mainRun samplePathOps sampleEnv "w" ["CLAUDE.md"]
        ((mainRun samplePathOps sampleEnv "w" ["CLAUDE.md"] emptyFS).fs) =
      .completed ((mainRun samplePathOps sampleEnv "w" ["CLAUDE.md"] emptyFS).fs) :=
  c1_reconciliation_idempotent samplePathOps sampleEnv "w" ["CLAUDE.md"] emptyFS _
    defaultOptions ["CLAUDE.md"] "AGENTS.md" rfl rfl (fun _ _ => rfl) (fun _ _ => rfl)
    (by
      intro f hf
      rcases List.mem_singleton.mp hf with rfl
      exact ⟨by decide, by decide, by decide, by decide⟩)
    (by
      intro f hf hne
      rcases List.mem_singleton.mp hf with rfl
      decide)
    (by
      intro f hf hne
      rcases List.mem_singleton.mp hf with rfl
      decide)
    (by
      intro f hf hne
      rcases List.mem_singleton.mp hf with rfl
      decide)
    (by
      intro f hf hne
      rcases List.mem_singleton.mp hf with rfl
      decide)
    (by
      intro f hf g hg hfu hgu
      rcases List.mem_singleton.mp hf with rfl
      rcases List.mem_singleton.mp hg with rfl
      decide)
    (by decide) (Or.inl rfl) (Or.inl rfl) rfl

/-- An environment whose symlink creation fails on linux and whose rename
of a specific backup path back also fails. -/
def sampleEnvRollbackFail : Env :=
  { platform := "linux", symlinkErr := fun _ _ => some .other,
    renameErr := fun s _ => decide (s = "w/CLAUDE.md.backup-7"), now := 7 }

/-- A concrete starting filesystem: one regular input and an empty unified
file. -/
def sampleFSreg : FS :=
  (emptyFS.set "w/CLAUDE.md" (.file "hi".data)).set "w/AGENTS.md" (.file [])

/-- C2 witness: with the concrete rollback-failing environment the loop
aborts with the critical message naming the backup path. -/
theorem c2_rollback_on_link_failure_witness :
    (sampleEnvRollbackFail.renameErr
        (backupPathOf sampleEnvRollbackFail (samplePathOps.join "w" "CLAUDE.md"))
        (samplePathOps.join "w" "CLAUDE.md") = false →
      ∃ fs', runFiles samplePathOps sampleEnvRollbackFail defaultOptions "w" "AGENTS.md"
          "w/AGENTS.md" ["CLAUDE.md", "GEMINI.md"] sampleFSreg =
          .err (.symlinkFailed .other) fs' ∧
        fs' (samplePathOps.join "w" "CLAUDE.md") = .file "hi".data ∧
        fs' (backupPathOf sampleEnvRollbackFail (samplePathOps.join "w" "CLAUDE.md")) =
          .absent) ∧
    (sampleEnvRollbackFail.renameErr
        (backupPathOf sampleEnvRollbackFail (samplePathOps.join "w" "CLAUDE.md"))
        (samplePathOps.join "w" "CLAUDE.md") = true →
      ∃ fs', runFiles samplePathOps sampleEnvRollbackFail defaultOptions "w" "AGENTS.md"
          "w/AGENTS.md" ["CLAUDE.md", "GEMINI.md"] sampleFSreg =
          .err (.critical ("Critical error: Failed to rollback " ++ "CLAUDE.md"
            ++ ". Backup at "
            ++ backupPathOf sampleEnvRollbackFail (samplePathOps.join "w" "CLAUDE.md")))
          fs') :=
  c2_rollback_on_link_failure samplePathOps sampleEnvRollbackFail defaultOptions
    "w" "AGENTS.md" "w/AGENTS.md" "CLAUDE.md" ["GEMINI.md"] sampleFSreg
    "hi".data [] .other rfl (by decide) rfl rfl (by decide) rfl (by decide) rfl

/-- C3 witness: merging a concrete regular file appends exactly one block
to the empty unified file. -/
theorem c3_merge_pure_append_witness :
    ∃ fs', processFile samplePathOps sampleEnv defaultOptions "w" "AGENTS.md"
        "w/AGENTS.md" sampleFSreg "CLAUDE.md" = .ok fs' ∧
      fs' "w/AGENTS.md" = .file (mergeStep "CLAUDE.md" "hi".data []) ∧
      (containsSub [] (blockStartOf "CLAUDE.md") = true →
        mergeStep "CLAUDE.md" "hi".data [] = []) ∧
      (containsSub [] (blockStartOf "CLAUDE.md") = false →
        mergeStep "CLAUDE.md" "hi".data [] =
          [] ++ (if ([] : List Char).length > 0 && !endsWithBlank [] then "\n\n".data else [])
            ++ blockStartOf "CLAUDE.md" ++ ['\n'] ++ trimChars "hi".data ++ ['\n']
            ++ blockEndOf "CLAUDE.md" ++ ['\n']) ∧
      ([] : List Char) <+: mergeStep "CLAUDE.md" "hi".data [] :=
  c3_merge_pure_append samplePathOps sampleEnv defaultOptions "w" "AGENTS.md"
    "w/AGENTS.md" "CLAUDE.md" sampleFSreg "hi".data []
    (fun _ _ => rfl) (fun _ _ => rfl) rfl (by decide) rfl rfl
    (by decide) (by decide) (by decide)

/-- The concrete truncated ignore-file content used by the C10 witness. -/
def truncGi : List Char := ("# coalesce-memory symlinked files\nA.md").data

/-- C10 witness: the concrete truncated ignore file gains a whole new
block at its end. -/
theorem c10_truncated_block_witness :
    gitignoreAdd "B.md" truncGi =
      truncGi ++ (if truncGi.length > 0 then "\n\n".data else []) ++ giInitBlock "B.md" ∧
    (splitLines (gitignoreAdd "B.md" truncGi)).countP
        (fun line => decide (trimChars line = giBlockStart)) =
      (splitLines truncGi).countP
        (fun line => decide (trimChars line = giBlockStart)) + 1 ∧
    1 ≤ (splitLines truncGi).countP
        (fun line => decide (trimChars line = giBlockStart)) ∧
    (∀ (gc : List Char) (f' : String) (sIdx jIdx : Nat),
      giStartIdx (splitLines gc) = some sIdx →
      giEndRel (splitLines gc) sIdx = some jIdx →
      gitignoreHas gc f' =
        (((splitLines gc).drop (sIdx + 1)).take jIdx).any
          (fun line => decide (trimChars line = f'.data))) :=
  c10_truncated_block "B.md" truncGi 0
    ⟨by decide, by decide, by decide, by decide⟩ (by decide) (by decide)

end Coalesce
